import Mathlib

/-! # xkb2win: XKB keysym to Windows key-event translation

A shallow embedding of `src/xkb2win.c` (the keysym translator `xkb_to_winkey`
and the decoder `utf8_char_to_ucs2`) and of the event loop body of
`src/kp.cpp` (modifier tracking on `cks`, assembly of `cks_current`, and the
loop that prints one win32-input-mode record per decoded character).

Conventions of the embedding:
* `int` values are mathematical integers (`Int`) or, for the bit set `cks`
  and the X11 modifier mask, natural numbers; `~m` on a 32-bit `int` is
  `bitNot32 m`.
* a `char *` is the list of bytes from the pointer to the end of the
  buffer; reading past the end of the buffer is an explicit fault.
* the macros of `X11/X.h` and `xkbcommon-keysyms.h`, and `isalpha` /
  `toupper` of the C locale, are not part of the repository; they are
  written out with the values of those headers.
* `isalpha` is defined on the arguments -128..255 only; a call with another
  argument is a fault. `xkb_to_winkey_checked` and `handleEvent_checked`
  carry that fault (`none`); `xkb_to_winkey` and `handleEvent` are the
  results whenever there is none, that is for every keysym whose `int`
  value is at least -128.
-/

namespace Xkb2Win

/-! ## Constants of `xkb2win.c`, lines 14-28 -/

def RIGHT_ALT_PRESSED : Nat := 0x0001
def LEFT_ALT_PRESSED : Nat := 0x0002
def RIGHT_CTRL_PRESSED : Nat := 0x0004
def LEFT_CTRL_PRESSED : Nat := 0x0008
def SHIFT_PRESSED : Nat := 0x0010
def NUMLOCK_ON : Nat := 0x0020
def SCROLLLOCK_ON : Nat := 0x0040
def CAPSLOCK_ON : Nat := 0x0080
def ENHANCED_KEY : Nat := 0x0100
def LEFT_SHIFT_PRESSED : Nat := 0x0200
def RIGHT_SHIFT_PRESSED : Nat := 0x0400

/-! ## Constants of `X11/X.h` -/

def ShiftMask : Nat := 1
def LockMask : Nat := 2
def ControlMask : Nat := 4
def Mod1Mask : Nat := 8
def Mod2Mask : Nat := 16
def Mod3Mask : Nat := 32
def Mod4Mask : Nat := 64
def Mod5Mask : Nat := 128
def KeyPress : Int := 2
def KeyRelease : Int := 3

/-! ## Keysym values of `xkbcommon-keysyms.h` -/

def XKB_KEY_BackSpace : Int := 0xff08
def XKB_KEY_Tab : Int := 0xff09
def XKB_KEY_Return : Int := 0xff0d
def XKB_KEY_Escape : Int := 0xff1b
def XKB_KEY_Delete : Int := 0xffff
def XKB_KEY_Home : Int := 0xff50
def XKB_KEY_Left : Int := 0xff51
def XKB_KEY_Up : Int := 0xff52
def XKB_KEY_Right : Int := 0xff53
def XKB_KEY_Down : Int := 0xff54
def XKB_KEY_Page_Up : Int := 0xff55
def XKB_KEY_Page_Down : Int := 0xff56
def XKB_KEY_End : Int := 0xff57
def XKB_KEY_Print : Int := 0xff61
def XKB_KEY_Insert : Int := 0xff63
def XKB_KEY_Menu : Int := 0xff67
def XKB_KEY_Num_Lock : Int := 0xff7f
def XKB_KEY_KP_Enter : Int := 0xff8d
def XKB_KEY_KP_Home : Int := 0xff95
def XKB_KEY_KP_Left : Int := 0xff96
def XKB_KEY_KP_Up : Int := 0xff97
def XKB_KEY_KP_Right : Int := 0xff98
def XKB_KEY_KP_Down : Int := 0xff99
def XKB_KEY_KP_Page_Up : Int := 0xff9a
def XKB_KEY_KP_Page_Down : Int := 0xff9b
def XKB_KEY_KP_End : Int := 0xff9c
def XKB_KEY_KP_Begin : Int := 0xff9d
def XKB_KEY_KP_Insert : Int := 0xff9e
def XKB_KEY_KP_Delete : Int := 0xff9f
def XKB_KEY_KP_Multiply : Int := 0xffaa
def XKB_KEY_KP_Add : Int := 0xffab
def XKB_KEY_KP_Subtract : Int := 0xffad
def XKB_KEY_KP_Decimal : Int := 0xffae
def XKB_KEY_KP_Divide : Int := 0xffaf
def XKB_KEY_KP_0 : Int := 0xffb0
def XKB_KEY_KP_1 : Int := 0xffb1
def XKB_KEY_KP_2 : Int := 0xffb2
def XKB_KEY_KP_3 : Int := 0xffb3
def XKB_KEY_KP_4 : Int := 0xffb4
def XKB_KEY_KP_5 : Int := 0xffb5
def XKB_KEY_KP_6 : Int := 0xffb6
def XKB_KEY_KP_7 : Int := 0xffb7
def XKB_KEY_KP_8 : Int := 0xffb8
def XKB_KEY_KP_9 : Int := 0xffb9
def XKB_KEY_F1 : Int := 0xffbe
def XKB_KEY_F2 : Int := 0xffbf
def XKB_KEY_F3 : Int := 0xffc0
def XKB_KEY_F4 : Int := 0xffc1
def XKB_KEY_F5 : Int := 0xffc2
def XKB_KEY_F6 : Int := 0xffc3
def XKB_KEY_F7 : Int := 0xffc4
def XKB_KEY_F8 : Int := 0xffc5
def XKB_KEY_F9 : Int := 0xffc6
def XKB_KEY_F10 : Int := 0xffc7
def XKB_KEY_F11 : Int := 0xffc8
def XKB_KEY_F12 : Int := 0xffc9
def XKB_KEY_Shift_L : Int := 0xffe1
def XKB_KEY_Shift_R : Int := 0xffe2
def XKB_KEY_Control_L : Int := 0xffe3
def XKB_KEY_Control_R : Int := 0xffe4
def XKB_KEY_Caps_Lock : Int := 0xffe5
def XKB_KEY_Alt_L : Int := 0xffe9
def XKB_KEY_Alt_R : Int := 0xffea
def XKB_KEY_Super_L : Int := 0xffeb
def XKB_KEY_Super_R : Int := 0xffec
def XKB_KEY_space : Int := 0x0020
def XKB_KEY_apostrophe : Int := 0x0027
def XKB_KEY_comma : Int := 0x002c
def XKB_KEY_minus : Int := 0x002d
def XKB_KEY_period : Int := 0x002e
def XKB_KEY_slash : Int := 0x002f
def XKB_KEY_0 : Int := 0x0030
def XKB_KEY_1 : Int := 0x0031
def XKB_KEY_2 : Int := 0x0032
def XKB_KEY_3 : Int := 0x0033
def XKB_KEY_4 : Int := 0x0034
def XKB_KEY_5 : Int := 0x0035
def XKB_KEY_6 : Int := 0x0036
def XKB_KEY_7 : Int := 0x0037
def XKB_KEY_8 : Int := 0x0038
def XKB_KEY_9 : Int := 0x0039
def XKB_KEY_semicolon : Int := 0x003b
def XKB_KEY_equal : Int := 0x003d
def XKB_KEY_A : Int := 0x0041
def XKB_KEY_B : Int := 0x0042
def XKB_KEY_C : Int := 0x0043
def XKB_KEY_D : Int := 0x0044
def XKB_KEY_E : Int := 0x0045
def XKB_KEY_F : Int := 0x0046
def XKB_KEY_G : Int := 0x0047
def XKB_KEY_H : Int := 0x0048
def XKB_KEY_I : Int := 0x0049
def XKB_KEY_J : Int := 0x004a
def XKB_KEY_K : Int := 0x004b
def XKB_KEY_L : Int := 0x004c
def XKB_KEY_M : Int := 0x004d
def XKB_KEY_N : Int := 0x004e
def XKB_KEY_O : Int := 0x004f
def XKB_KEY_P : Int := 0x0050
def XKB_KEY_Q : Int := 0x0051
def XKB_KEY_R : Int := 0x0052
def XKB_KEY_S : Int := 0x0053
def XKB_KEY_T : Int := 0x0054
def XKB_KEY_U : Int := 0x0055
def XKB_KEY_V : Int := 0x0056
def XKB_KEY_W : Int := 0x0057
def XKB_KEY_X : Int := 0x0058
def XKB_KEY_Y : Int := 0x0059
def XKB_KEY_Z : Int := 0x005a
def XKB_KEY_bracketleft : Int := 0x005b
def XKB_KEY_backslash : Int := 0x005c
def XKB_KEY_bracketright : Int := 0x005d
def XKB_KEY_grave : Int := 0x0060

/-! ## `xkb_to_winkey` (`xkb2win.c`, lines 45-168) -/

/-- The three bytes of the array returned by `xkb_to_winkey`:
`arr[0]` (wVirtualKeyCode), `arr[1]` (wVirtualScanCode), `arr[2]`
(ENHANCED_KEY flag). -/
structure WinKeyData where
  vk : Nat
  scan : Nat
  enhanced : Nat
  deriving DecidableEq, Repr

/-- The `isalpha` of ctype.h in the C locale, which is the one in force as
the program never sets a locale. The call is defined on the arguments
-128..255 that the table of the C library covers (the C standard itself
asks for `EOF` or the value of an `unsigned char`); with any other argument
it reads outside that table, which is `none` here. -/
def isalpha (c : Int) : Option Bool :=
  if -128 ≤ c ∧ c ≤ 255 then
    some ((decide (0x41 ≤ c) && decide (c ≤ 0x5a)) || (decide (0x61 ≤ c) && decide (c ≤ 0x7a)))
  else none

/-- The `toupper` of ctype.h in the C locale. -/
def toupper (c : Int) : Int :=
  if 0x61 ≤ c ∧ c ≤ 0x7a then c - 0x20 else c

/-- Line 47: `if ((code < 128) && isalpha(code)) { code = toupper(code); }`,
as the value of `code` behind the line. For `code < -128` the call of
`isalpha` is outside its domain and the program need not get behind the
line at all; `xkb_to_winkey_checked` keeps that case apart, and here the
code is left as it is. -/
def foldCode (code : Int) : Int :=
  if code < 128 ∧ isalpha code = some true then toupper code else code

/-- The `case` labels of the switch of lines 49-164 with the array each one
returns, in source order. -/
def switchCases : List (Int × WinKeyData) :=
  [ (XKB_KEY_BackSpace,    WinKeyData.mk   8  14 0),
    (XKB_KEY_Tab,          WinKeyData.mk   9  15 0),
    (XKB_KEY_KP_Begin,     WinKeyData.mk  12  76 0),
    (XKB_KEY_Return,       WinKeyData.mk  13  28 0),
    (XKB_KEY_KP_Enter,     WinKeyData.mk  13  28 1),
    (XKB_KEY_Shift_L,      WinKeyData.mk  16  42 0),
    (XKB_KEY_Shift_R,      WinKeyData.mk  16  54 0),
    (XKB_KEY_Control_L,    WinKeyData.mk  17  29 0),
    (XKB_KEY_Control_R,    WinKeyData.mk  17  29 1),
    (XKB_KEY_Alt_L,        WinKeyData.mk  18  56 0),
    (XKB_KEY_Alt_R,        WinKeyData.mk  18  56 1),
    (XKB_KEY_Caps_Lock,    WinKeyData.mk  20  58 0),
    (XKB_KEY_Escape,       WinKeyData.mk  27   1 0),
    (XKB_KEY_space,        WinKeyData.mk  32  57 0),
    (XKB_KEY_Page_Up,      WinKeyData.mk  33  73 1),
    (XKB_KEY_KP_Page_Up,   WinKeyData.mk  33  73 0),
    (XKB_KEY_Page_Down,    WinKeyData.mk  34  81 1),
    (XKB_KEY_KP_Page_Down, WinKeyData.mk  34  81 0),
    (XKB_KEY_End,          WinKeyData.mk  35  79 1),
    (XKB_KEY_KP_End,       WinKeyData.mk  35  79 0),
    (XKB_KEY_Home,         WinKeyData.mk  36  71 1),
    (XKB_KEY_KP_Home,      WinKeyData.mk  36  71 0),
    (XKB_KEY_Left,         WinKeyData.mk  37  75 1),
    (XKB_KEY_KP_Left,      WinKeyData.mk  37  75 0),
    (XKB_KEY_Up,           WinKeyData.mk  38  72 1),
    (XKB_KEY_KP_Up,        WinKeyData.mk  38  72 0),
    (XKB_KEY_Right,        WinKeyData.mk  39  77 1),
    (XKB_KEY_KP_Right,     WinKeyData.mk  39  77 0),
    (XKB_KEY_Down,         WinKeyData.mk  40  80 1),
    (XKB_KEY_KP_Down,      WinKeyData.mk  40  80 0),
    (XKB_KEY_Print,        WinKeyData.mk  44  55 1),
    (XKB_KEY_Insert,       WinKeyData.mk  45  82 1),
    (XKB_KEY_KP_Insert,    WinKeyData.mk  45  82 0),
    (XKB_KEY_Delete,       WinKeyData.mk  46  83 1),
    (XKB_KEY_KP_Delete,    WinKeyData.mk  46  83 0),
    (XKB_KEY_0,            WinKeyData.mk  48  11 0),
    (XKB_KEY_1,            WinKeyData.mk  49   2 0),
    (XKB_KEY_2,            WinKeyData.mk  50   3 0),
    (XKB_KEY_3,            WinKeyData.mk  51   4 0),
    (XKB_KEY_4,            WinKeyData.mk  52   5 0),
    (XKB_KEY_5,            WinKeyData.mk  53   6 0),
    (XKB_KEY_6,            WinKeyData.mk  54   7 0),
    (XKB_KEY_7,            WinKeyData.mk  55   8 0),
    (XKB_KEY_8,            WinKeyData.mk  56   9 0),
    (XKB_KEY_9,            WinKeyData.mk  57  10 0),
    (XKB_KEY_A,            WinKeyData.mk  65 108 0),
    (XKB_KEY_B,            WinKeyData.mk  66 124 0),
    (XKB_KEY_C,            WinKeyData.mk  67 122 0),
    (XKB_KEY_D,            WinKeyData.mk  68 110 0),
    (XKB_KEY_E,            WinKeyData.mk  69  98 0),
    (XKB_KEY_F,            WinKeyData.mk  70 111 0),
    (XKB_KEY_G,            WinKeyData.mk  71 112 0),
    (XKB_KEY_H,            WinKeyData.mk  72 113 0),
    (XKB_KEY_I,            WinKeyData.mk  73 103 0),
    (XKB_KEY_J,            WinKeyData.mk  74 114 0),
    (XKB_KEY_K,            WinKeyData.mk  75 115 0),
    (XKB_KEY_L,            WinKeyData.mk  76 116 0),
    (XKB_KEY_M,            WinKeyData.mk  77 126 0),
    (XKB_KEY_N,            WinKeyData.mk  78 125 0),
    (XKB_KEY_O,            WinKeyData.mk  79 104 0),
    (XKB_KEY_P,            WinKeyData.mk  80 105 0),
    (XKB_KEY_Q,            WinKeyData.mk  81  96 0),
    (XKB_KEY_R,            WinKeyData.mk  82  99 0),
    (XKB_KEY_S,            WinKeyData.mk  83 109 0),
    (XKB_KEY_T,            WinKeyData.mk  84 100 0),
    (XKB_KEY_U,            WinKeyData.mk  85 102 0),
    (XKB_KEY_V,            WinKeyData.mk  86 123 0),
    (XKB_KEY_W,            WinKeyData.mk  87  97 0),
    (XKB_KEY_X,            WinKeyData.mk  88 121 0),
    (XKB_KEY_Y,            WinKeyData.mk  89 101 0),
    (XKB_KEY_Z,            WinKeyData.mk  90 120 0),
    (XKB_KEY_Super_L,      WinKeyData.mk  91  91 1),
    (XKB_KEY_Super_R,      WinKeyData.mk  92  92 1),
    (XKB_KEY_Menu,         WinKeyData.mk  93  93 1),
    (XKB_KEY_KP_0,         WinKeyData.mk  96  82 0),
    (XKB_KEY_KP_1,         WinKeyData.mk  97  79 0),
    (XKB_KEY_KP_2,         WinKeyData.mk  98  80 0),
    (XKB_KEY_KP_3,         WinKeyData.mk  99  81 0),
    (XKB_KEY_KP_4,         WinKeyData.mk 100  75 0),
    (XKB_KEY_KP_5,         WinKeyData.mk 101  76 0),
    (XKB_KEY_KP_6,         WinKeyData.mk 102  77 0),
    (XKB_KEY_KP_7,         WinKeyData.mk 103  71 0),
    (XKB_KEY_KP_8,         WinKeyData.mk 104  72 0),
    (XKB_KEY_KP_9,         WinKeyData.mk 105  73 0),
    (XKB_KEY_KP_Multiply,  WinKeyData.mk 106  55 0),
    (XKB_KEY_KP_Add,       WinKeyData.mk 107  78 0),
    (XKB_KEY_KP_Subtract,  WinKeyData.mk 109  74 0),
    (XKB_KEY_KP_Decimal,   WinKeyData.mk 110  83 0),
    (XKB_KEY_KP_Divide,    WinKeyData.mk 111  53 1),
    (XKB_KEY_F1,           WinKeyData.mk 112  59 0),
    (XKB_KEY_F2,           WinKeyData.mk 113  60 0),
    (XKB_KEY_F3,           WinKeyData.mk 114  61 0),
    (XKB_KEY_F4,           WinKeyData.mk 115  62 0),
    (XKB_KEY_F5,           WinKeyData.mk 116  63 0),
    (XKB_KEY_F6,           WinKeyData.mk 117  64 0),
    (XKB_KEY_F7,           WinKeyData.mk 118  65 0),
    (XKB_KEY_F8,           WinKeyData.mk 119  66 0),
    (XKB_KEY_F9,           WinKeyData.mk 120  67 0),
    (XKB_KEY_F10,          WinKeyData.mk 121  68 0),
    (XKB_KEY_F11,          WinKeyData.mk 122  87 0),
    (XKB_KEY_F12,          WinKeyData.mk 123  88 0),
    (XKB_KEY_Num_Lock,     WinKeyData.mk 144  69 1),
    (XKB_KEY_semicolon,    WinKeyData.mk 186 117 0),
    (XKB_KEY_equal,        WinKeyData.mk 187  13 0),
    (XKB_KEY_comma,        WinKeyData.mk 188 127 0),
    (XKB_KEY_minus,        WinKeyData.mk 189  12 0),
    (XKB_KEY_period,       WinKeyData.mk 190 128 0),
    (XKB_KEY_slash,        WinKeyData.mk 191  53 0),
    (XKB_KEY_grave,        WinKeyData.mk 192 119 0),
    (XKB_KEY_bracketleft,  WinKeyData.mk 219 106 0),
    (XKB_KEY_backslash,    WinKeyData.mk 220  43 0),
    (XKB_KEY_bracketright, WinKeyData.mk 221 107 0),
    (XKB_KEY_apostrophe,   WinKeyData.mk 222 118 0) ]

/-- The labels of the switch. -/
def caseLabels : List Int := switchCases.map Prod.fst

/-- The switch statement: the array of the first (and, the labels being
distinct, only) case whose label equals `code`; `none` when control falls
out of the switch. -/
def switchOn (code : Int) : List (Int × WinKeyData) → Option WinKeyData
  | [] => none
  | (label, arr) :: rest => if code = label then some arr else switchOn code rest

/-- The function `xkb_to_winkey`: fold ASCII letters to upper case, run the
switch, and return `{0, 0, 0}` (lines 166-167) when no case matched. This
is the array returned whenever the call of `isalpha` at line 47 is defined,
that is for every `code` from -128 on (`xkb_to_winkey_checked_of_ge`). -/
def xkb_to_winkey (code : Int) : WinKeyData :=
  match switchOn (foldCode code) switchCases with
  | some arr => arr
  | none => ⟨0, 0, 0⟩

/-- The function `xkb_to_winkey` (lines 45-168) with the fault of line 47
made explicit: `isalpha` is called for every `code < 128`, and where that
call is outside the domain of `isalpha` the function does not return
(`none`). -/
def xkb_to_winkey_checked (code : Int) : Option WinKeyData :=
  let folded : Option Int :=
    if code < 128 then
      match isalpha code with
      | none => none
      | some a => some (if a = true then toupper code else code)
    else some code
  match folded with
  | none => none
  | some c =>
    match switchOn c switchCases with
    | some arr => some arr
    | none => some ⟨0, 0, 0⟩

/-! ## `utf8_char_to_ucs2` (`xkb2win.c`, lines 177-188) -/

/-- The function `utf8_char_to_ucs2`. The argument is the list of bytes
(values 0..255 of the `char`s) from the pointer `utf8` to the end of the
buffer. The result is the pair of the value stored to `*out` and the
returned count; `none` stands for a read of `utf8[1]` or `utf8[2]` (or
`utf8[0]`) that lies outside the buffer. -/
def utf8_char_to_ucs2 (utf8 : List Nat) : Option (Nat × Nat) :=
  match utf8 with
  | [] => none
  | b0 :: t =>
    if b0 = 0 then some (0, 0)
    else if b0 &&& 0x80 = 0 then some (b0, 1)
    else if b0 &&& 0xE0 = 0xC0 then
      match t with
      | b1 :: _ => some (((b0 &&& 0x1F) <<< 6) ||| (b1 &&& 0x3F), 2)
      | [] => none
    else if b0 &&& 0xF0 = 0xE0 then
      match t with
      | b1 :: b2 :: _ =>
        some (((b0 &&& 0x0F) <<< 12) ||| ((b1 &&& 0x3F) <<< 6) ||| (b2 &&& 0x3F), 3)
      | _ => none
    else some (0, 0)

/-- The spec's `encode`: the standard UTF-8 encoding of a code point below
0x10000 in one, two or three bytes. This is the reference the decoder is
compared with; it is not taken from the source. -/
def standardUtf8Encode (p : Nat) : List Nat :=
  if p < 0x80 then [p]
  else if p < 0x800 then [0xC0 ||| (p >>> 6), 0x80 ||| (p &&& 0x3F)]
  else [0xE0 ||| (p >>> 12), 0x80 ||| ((p >>> 6) &&& 0x3F), 0x80 ||| (p &&& 0x3F)]

/-- The spec's encoding of a string of code points: the encodings of the
code points one after the other. -/
def standardUtf8EncodeAll (ps : List Nat) : List Nat :=
  ps.flatMap standardUtf8Encode

/-! ## The event loop body of `kp.cpp` (lines 92-169) -/

/-- The operator `~` on a 32-bit `int` holding the non-negative value `m`,
as the bit pattern of the result. -/
def bitNot32 (m : Nat) : Nat := 0xFFFFFFFF ^^^ m

/-- What the loop body reads of one X11 key event: `sym` is the keysym
returned by `xkb_state_key_get_one_sym` (line 90), `type` is `event.type`,
`state` is `event.xkey.state`. -/
structure KeyEvent where
  sym : Int
  type : Int
  state : Nat
  deriving DecidableEq, Repr

/-- Lines 93-98: reset of the tracked flags of every modifier family that
`event.xkey.state` does not report. -/
def reconcile (cks state : Nat) : Nat :=
  let cks := if state &&& ShiftMask = 0 then
      ((cks &&& bitNot32 LEFT_SHIFT_PRESSED) &&& bitNot32 RIGHT_SHIFT_PRESSED)
        &&& bitNot32 SHIFT_PRESSED
    else cks
  let cks := if state &&& ControlMask = 0 then
      (cks &&& bitNot32 LEFT_CTRL_PRESSED) &&& bitNot32 RIGHT_CTRL_PRESSED
    else cks
  let cks := if state &&& Mod1Mask = 0 ∧ state &&& Mod5Mask = 0 then
      (cks &&& bitNot32 LEFT_ALT_PRESSED) &&& bitNot32 RIGHT_ALT_PRESSED
    else cks
  cks

/-- Lines 101-114: the twelve `if` statements that set or clear a flag on
the press or release of a modifier key, in source order. -/
def edgeTransition (cks : Nat) (sym type : Int) : Nat :=
  let cks := if sym = XKB_KEY_Shift_L ∧ type = KeyPress then
    (cks ||| LEFT_SHIFT_PRESSED) ||| SHIFT_PRESSED else cks
  let cks := if sym = XKB_KEY_Shift_L ∧ type = KeyRelease then
    (cks &&& bitNot32 LEFT_SHIFT_PRESSED) &&& bitNot32 SHIFT_PRESSED else cks
  let cks := if sym = XKB_KEY_Shift_R ∧ type = KeyPress then
    (cks ||| RIGHT_SHIFT_PRESSED) ||| SHIFT_PRESSED else cks
  let cks := if sym = XKB_KEY_Shift_R ∧ type = KeyRelease then
    (cks &&& bitNot32 RIGHT_SHIFT_PRESSED) &&& bitNot32 SHIFT_PRESSED else cks
  let cks := if sym = XKB_KEY_Control_L ∧ type = KeyPress then
    cks ||| LEFT_CTRL_PRESSED else cks
  let cks := if sym = XKB_KEY_Control_L ∧ type = KeyRelease then
    cks &&& bitNot32 LEFT_CTRL_PRESSED else cks
  let cks := if sym = XKB_KEY_Control_R ∧ type = KeyPress then
    cks ||| RIGHT_CTRL_PRESSED else cks
  let cks := if sym = XKB_KEY_Control_R ∧ type = KeyRelease then
    cks &&& bitNot32 RIGHT_CTRL_PRESSED else cks
  let cks := if sym = XKB_KEY_Alt_L ∧ type = KeyPress then
    cks ||| LEFT_ALT_PRESSED else cks
  let cks := if sym = XKB_KEY_Alt_L ∧ type = KeyRelease then
    cks &&& bitNot32 LEFT_ALT_PRESSED else cks
  let cks := if sym = XKB_KEY_Alt_R ∧ type = KeyPress then
    cks ||| RIGHT_ALT_PRESSED else cks
  let cks := if sym = XKB_KEY_Alt_R ∧ type = KeyRelease then
    cks &&& bitNot32 RIGHT_ALT_PRESSED else cks
  cks

/-- Lines 92-114: the value of the variable `cks` after one event, from its
value before the event. -/
def updateCks (cks : Nat) (ev : KeyEvent) : Nat :=
  edgeTransition (reconcile cks ev.state) ev.sym ev.type

/-- The value of `cks` after a sequence of events, from the initial value
`cks = 0` of line 21. -/
def cksAfter (evs : List KeyEvent) : Nat :=
  evs.foldl updateCks 0

/-- Conversion of the `xkb_keysym_t` (32-bit unsigned) `sym` to the `int`
parameter of `xkb_to_winkey` at the call of line 135. -/
def keysymToInt (sym : Int) : Int :=
  if sym % 2 ^ 32 < 2 ^ 31 then sym % 2 ^ 32 else sym % 2 ^ 32 - 2 ^ 32

/-- Lines 141-144: the local `cks_current`. -/
def cks_current (cks : Nat) (win_key_data : WinKeyData) (state : Nat) : Nat :=
  let c := cks ||| (if win_key_data.enhanced ≠ 0 then ENHANCED_KEY else 0)
  let c := if state &&& LockMask ≠ 0 then c ||| CAPSLOCK_ON else c
  let c := if state &&& Mod2Mask ≠ 0 then c ||| NUMLOCK_ON else c
  let c := if state &&& Mod3Mask ≠ 0 then c ||| SCROLLLOCK_ON else c
  c

/-- The six integers of one printed win32-input-mode sequence (the
arguments of the `printf` of lines 158-165, in order). -/
structure EscSequence where
  VirtualKeyCode : Nat
  VirtualScanCode : Nat
  UnicodeChar : Nat
  KeyDown : Nat
  dwControlKeyState : Nat
  RepeatCount : Nat
  deriving DecidableEq, Repr

/-- How a run of the loop of lines 153-169 ended: by its `break`, by a read
outside `buf` in the decoder, or (in the model only) by lack of fuel. -/
inductive LoopExit where
  | brk
  | fault
  | fuel
  deriving DecidableEq, Repr

/-- The sequence printed by one iteration of the loop. -/
def escSequence (win_key_data : WinKeyData) (type : Int) (cksCur ch : Nat) : EscSequence :=
  { VirtualKeyCode := win_key_data.vk
    VirtualScanCode := win_key_data.scan
    UnicodeChar := ch
    KeyDown := if type = KeyPress then 1 else 0
    dwControlKeyState := cksCur
    RepeatCount := 1 }

/-- The loop of lines 153-169, from the iteration that starts with the
given `offset` and `first`; one unit of fuel per iteration. The result is
the list of sequences printed and the way the loop ended. -/
def emitLoop (win_key_data : WinKeyData) (type : Int) (cksCur : Nat) (buf : List Nat) :
    Nat → Nat → Bool → List EscSequence × LoopExit
  | 0, _, _ => ([], LoopExit.fuel)
  | fuel + 1, offset, first =>
    match utf8_char_to_ucs2 (buf.drop offset) with
    | none => ([], LoopExit.fault)
    | some (ch, numread) =>
      if numread ≠ 0 ∨ first = true then
        let r := emitLoop win_key_data type cksCur buf fuel (offset + numread) false
        (escSequence win_key_data type cksCur ch :: r.1, r.2)
      else ([], LoopExit.brk)

/-- Lines 92-169 for one event: `cks` is the tracked value before the
event, `buf` the content of the array `buf` after line 131 (the UTF-8
bytes of the event, the terminating zero written by `buf[r] = 0`, and
whatever the array held behind it). The result is the new value of `cks`,
the sequences printed and the way the loop ended. The fuel covers every run
of the loop (`emitLoop_fuel`). The call of line 135 is taken to return, as
it does for every keysym whose `int` value is at least -128;
`handleEvent_checked` keeps the other keysyms apart. -/
def handleEvent (cks : Nat) (ev : KeyEvent) (buf : List Nat) :
    Nat × List EscSequence × LoopExit :=
  let cks := updateCks cks ev
  let win_key_data := xkb_to_winkey (keysymToInt ev.sym)
  let cksCur := cks_current cks win_key_data ev.state
  (cks, emitLoop win_key_data ev.type cksCur buf (buf.length + 2) 0 true)

/-- Lines 92-169 for one event with the fault of line 47 made explicit:
when the call `xkb_to_winkey(sym)` of line 135 does not return, the program
stops before the loop of lines 153-169 and prints no sequence (`none`);
otherwise the result is that of `handleEvent`. -/
def handleEvent_checked (cks : Nat) (ev : KeyEvent) (buf : List Nat) :
    Option (Nat × List EscSequence × LoopExit) :=
  let cks := updateCks cks ev
  match xkb_to_winkey_checked (keysymToInt ev.sym) with
  | none => none
  | some win_key_data =>
    let cksCur := cks_current cks win_key_data ev.state
    some (cks, emitLoop win_key_data ev.type cksCur buf (buf.length + 2) 0 true)

/-- The value of `cks_current` (the dwControlKeyState printed) for one
event, from the value of `cks` before the event: lines 92-144. -/
def eventControlKeyState (cks : Nat) (ev : KeyEvent) : Nat :=
  cks_current (updateCks cks ev) (xkb_to_winkey (keysymToInt ev.sym)) ev.state

/-- Two flag words agree on the listed bit positions. -/
def agreeOn (bits : List Nat) (a b : Nat) : Prop :=
  ∀ i ∈ bits, a.testBit i = b.testBit i

instance (bits : List Nat) (a b : Nat) : Decidable (agreeOn bits a b) :=
  inferInstanceAs (Decidable (∀ i ∈ bits, a.testBit i = b.testBit i))

/-- A flag word has no bit set outside the seven tracked positions 0-4, 9
and 10. -/
def TrackedOnly (s : Nat) : Prop :=
  ∀ i, s.testBit i = true → i = 0 ∨ i = 1 ∨ i = 2 ∨ i = 3 ∨ i = 4 ∨ i = 9 ∨ i = 10

/-! ## Reading the bytes as signed `char` -/

/-- The value of a `char` with the bit pattern `b` when `char` is signed
(as on x86 Linux): 0..127 for the patterns 0..127, -128..-1 for the patterns
128..255. -/
def signedChar (b : Nat) : Int :=
  if b < 128 then (b : Int) else (b : Int) - 256

/-- The function `utf8_char_to_ucs2` with each `utf8[i]` a signed `char`
promoted to `int`, as the C expressions of lines 179-185 compute on a
platform with signed `char`: the operators `&`, `|`, `<<` act on integers in
two's complement. -/
def utf8_char_to_ucs2_schar (utf8 : List Int) : Option (Int × Nat) :=
  match utf8 with
  | [] => none
  | c0 :: t =>
    if c0 = 0 then some (0, 0)
    else if Int.land c0 0x80 = 0 then some (c0, 1)
    else if Int.land c0 0xE0 = 0xC0 then
      match t with
      | c1 :: _ => some (Int.lor (Int.land c0 0x1F <<< (6 : Int)) (Int.land c1 0x3F), 2)
      | [] => none
    else if Int.land c0 0xF0 = 0xE0 then
      match t with
      | c1 :: c2 :: _ =>
        some (Int.lor (Int.lor (Int.land c0 0x0F <<< (12 : Int))
          (Int.land c1 0x3F <<< (6 : Int))) (Int.land c2 0x3F), 3)
      | _ => none
    else some (0, 0)

/-! ## The offsets of the loop of lines 153-169 -/

/-- The values of `offset` with which the loop of lines 153-169 calls the
decoder (`&buf[offset]`, line 154), in order; the recursion is that of
`emitLoop`. -/
def decodeOffsets (buf : List Nat) : Nat → Nat → Bool → List Nat
  | 0, _, _ => []
  | fuel + 1, offset, first =>
    offset ::
      match utf8_char_to_ucs2 (buf.drop offset) with
      | none => []
      | some (_, numread) =>
        if numread ≠ 0 ∨ first = true then decodeOffsets buf fuel (offset + numread) false
        else []

/-- No multi-byte lead that the loop of lines 153-169 reaches in the
payload `p` is cut off by the terminator behind `p`: the payload is scanned
as the decoder does it (one byte for bit 7 clear, two for `110xxxxx`, three
for `1110xxxx`), a two-byte lead must have one more payload byte and a
three-byte lead two; the scan ends at a zero byte and at a byte of another
shape, where the decoder returns `(0, 0)` and the loop stops. -/
def leadsComplete : List Nat → Bool
  | [] => true
  | [b0] =>
    if b0 = 0 then true
    else if b0 &&& 0x80 = 0 then true
    else if b0 &&& 0xE0 = 0xC0 then false
    else if b0 &&& 0xF0 = 0xE0 then false
    else true
  | [b0, b1] =>
    if b0 = 0 then true
    else if b0 &&& 0x80 = 0 then leadsComplete [b1]
    else if b0 &&& 0xE0 = 0xC0 then true
    else if b0 &&& 0xF0 = 0xE0 then false
    else true
  | b0 :: b1 :: b2 :: t =>
    if b0 = 0 then true
    else if b0 &&& 0x80 = 0 then leadsComplete (b1 :: b2 :: t)
    else if b0 &&& 0xE0 = 0xC0 then leadsComplete (b2 :: t)
    else if b0 &&& 0xF0 = 0xE0 then leadsComplete t
    else true

/-- A function on flag words that acts on each bit position separately,
by clearing the bit (`a i = false`), setting it (`b i = true`) or leaving
it: the shape of every statement of lines 93-114. -/
def BitwiseAffine (f : Nat → Nat) : Prop :=
  ∃ a b : Nat → Bool, ∀ s i, (f s).testBit i = ((s.testBit i && a i) || b i)

/-! ## Lemmas on the switch and the decoder -/

/-- The case labels of the switch are pairwise distinct (as C requires), so
the first matching case of `switchOn` is the only one. -/
theorem caseLabels_nodup : caseLabels.Nodup := by
  decide

theorem switchOn_of_not_mem (code : Int) :
    ∀ cases : List (Int × WinKeyData), code ∉ cases.map Prod.fst → switchOn code cases = none
  | [], _ => rfl
  | (label, arr) :: rest, h => by
    have hne : code ≠ label := fun e => h (by simp [e])
    have hrest : code ∉ rest.map Prod.fst := fun m => h (by simp [m])
    simp [switchOn, hne, switchOn_of_not_mem code rest hrest]

theorem foldCode_lower (c : Int) (h1 : 0x41 ≤ c) (h2 : c ≤ 0x5a) : foldCode (c + 0x20) = c := by
  have hlt : c + 0x20 < 128 := by omega
  have hal : isalpha (c + 0x20) = some true := by
    have hd : -128 ≤ c + 0x20 ∧ c + 0x20 ≤ 255 := by constructor <;> omega
    simp only [isalpha, hd, and_self, if_true, Option.some.injEq, Bool.or_eq_true,
      Bool.and_eq_true, decide_eq_true_eq]
    right; constructor <;> omega
  have hup : toupper (c + 0x20) = c := by
    have : 0x61 ≤ c + 0x20 ∧ c + 0x20 ≤ 0x7a := by constructor <;> omega
    simp only [toupper, this, and_self, if_true]
    omega
  simp only [foldCode, hlt, hal, and_self, if_true, hup]

theorem foldCode_upper (c : Int) (h1 : 0x41 ≤ c) (h2 : c ≤ 0x5a) : foldCode c = c := by
  have hup : toupper c = c := by
    have : ¬ (0x61 ≤ c ∧ c ≤ 0x7a) := by omega
    simp only [toupper, this, if_false]
  unfold foldCode
  split
  · exact hup
  · rfl

theorem foldCode_ge_128 (code : Int) (h : 128 ≤ code) : foldCode code = code := by
  have : ¬ (code < 128 ∧ isalpha code = some true) := fun hh => by omega
  simp only [foldCode, this, if_false]

/-- From -128 on the call of `isalpha` at line 47 is defined (or not made),
and `xkb_to_winkey` returns the array of the total function. -/
theorem xkb_to_winkey_checked_of_ge (code : Int) (h : -128 ≤ code) :
    xkb_to_winkey_checked code = some (xkb_to_winkey code) := by
  unfold xkb_to_winkey_checked xkb_to_winkey foldCode
  by_cases hlt : code < 128
  · have hd : -128 ≤ code ∧ code ≤ 255 := ⟨h, by omega⟩
    simp only [hlt, if_true, true_and, isalpha, hd, and_self, Option.some.injEq]
    split_ifs <;> (cases switchOn _ switchCases <;> rfl)
  · simp only [hlt, if_false, false_and]
    cases switchOn code switchCases <;> rfl

/-- Below -128 the call of `isalpha` at line 47 is outside its domain. -/
theorem xkb_to_winkey_checked_of_lt (code : Int) (h : code < -128) :
    xkb_to_winkey_checked code = none := by
  have hlt : code < 128 := by omega
  have hd : ¬ (-128 ≤ code ∧ code ≤ 255) := by omega
  simp only [xkb_to_winkey_checked, hlt, if_true, isalpha, hd, if_false]

/-- Every case label of the switch is a keysym value, none is negative. -/
theorem caseLabels_nonneg : ∀ l ∈ caseLabels, 0 ≤ l := by
  decide

/-- A code that reaches a case of the switch is not below -128. -/
theorem ge_of_foldCode_mem (code : Int) (h : foldCode code ∈ caseLabels) : -128 ≤ code := by
  by_contra hlt
  have hd : ¬ (-128 ≤ code ∧ code ≤ 255) := by omega
  have hf : foldCode code = code := by
    simp [foldCode, isalpha, hd]
  rw [hf] at h
  have := caseLabels_nonneg code h
  omega

/-- One iteration that decodes `(ch, 0)` on the first pass prints one
sequence and the next iteration leaves the loop. -/
theorem emitLoop_first_zero (w : WinKeyData) (type : Int) (c : Nat) (buf : List Nat)
    (fuel offset ch : Nat) (hd : utf8_char_to_ucs2 (buf.drop offset) = some (ch, 0)) :
    emitLoop w type c buf (fuel + 2) offset true = ([escSequence w type c ch], LoopExit.brk) := by
  simp [emitLoop, hd]

/-! ## C1 -/

/-- C1, as stated, fails: on a fresh tracker the event (keysym `A`,
key-down, mask = ShiftMask) with an empty payload does not print a sequence
with the fields of the claim and the any-Shift bit set in dwControlKeyState;
the mask alone never sets a tracked flag. -/
theorem C1_counterexample :
    ¬ ∃ r : EscSequence,
        (handleEvent 0 ⟨XKB_KEY_A, KeyPress, ShiftMask⟩ [0]).2.1 = [r] ∧
        r.VirtualKeyCode = 65 ∧ r.VirtualScanCode = 108 ∧ r.UnicodeChar = 0 ∧
        r.KeyDown = 1 ∧ r.RepeatCount = 1 ∧ r.dwControlKeyState &&& SHIFT_PRESSED ≠ 0 := by
  have h : (handleEvent 0 ⟨XKB_KEY_A, KeyPress, ShiftMask⟩ [0]).2.1 =
      [⟨65, 108, 0, 1, 0, 1⟩] := by decide
  rintro ⟨r, hr, -, -, -, -, -, hbit⟩
  rw [h] at hr
  have hr2 : r = ⟨65, 108, 0, 1, 0, 1⟩ := by
    injection hr with e _
    exact e.symm
  subst hr2
  exact hbit (by decide)

/-- C1, amended: on a fresh tracker (`cks = 0`) the event (keysym `A`,
key-down, mask = ShiftMask) whose buffer starts with the terminator prints
exactly one sequence, `65;108;0;1;0;1` (dwControlKeyState 0, any-Shift
clear), leaves `cks` at 0 and leaves the loop by `break`; when the tracker
has first seen a Shift_L key-down (with any mask) the same event prints
exactly `65;108;0;1;528;1`, in which bit 4 (and bit 9) is set. -/
theorem C1_fresh_tracker_A_with_shift_mask (rest : List Nat) (m : Nat) :
    handleEvent 0 ⟨XKB_KEY_A, KeyPress, ShiftMask⟩ (0 :: rest) =
        (0, [⟨65, 108, 0, 1, 0, 1⟩], LoopExit.brk) ∧
    handleEvent (updateCks 0 ⟨XKB_KEY_Shift_L, KeyPress, m⟩)
        ⟨XKB_KEY_A, KeyPress, ShiftMask⟩ (0 :: rest) =
        (0x210, [⟨65, 108, 0, 1, 0x210, 1⟩], LoopExit.brk) ∧
    0x210 &&& SHIFT_PRESSED = SHIFT_PRESSED := by
  have hd : utf8_char_to_ucs2 ((0 :: rest).drop 0) = some (0, 0) := by
    simp [utf8_char_to_ucs2]
  have hw : xkb_to_winkey (keysymToInt XKB_KEY_A) = ⟨65, 108, 0⟩ := by decide
  have hu0 : updateCks 0 ⟨XKB_KEY_A, KeyPress, ShiftMask⟩ = 0 := by decide
  have hrec : reconcile 0 m = 0 := by
    unfold reconcile
    simp
  have hu1 : updateCks 0 ⟨XKB_KEY_Shift_L, KeyPress, m⟩ = 0x210 := by
    unfold updateCks
    simp only [hrec]
    decide
  have hu2 : updateCks 0x210 ⟨XKB_KEY_A, KeyPress, ShiftMask⟩ = 0x210 := by decide
  have hlen : (0 :: rest).length + 2 = rest.length + 1 + 2 := rfl
  refine ⟨?_, ?_, by decide⟩
  · unfold handleEvent
    simp only [hu0, hw, hlen, emitLoop_first_zero _ _ _ _ _ _ _ hd]
    decide
  · unfold handleEvent
    simp only [hu1, hu2, hw, hlen, emitLoop_first_zero _ _ _ _ _ _ _ hd]
    decide

/-! ## C2 -/

theorem lead2_bits (h : Nat) (hh : h < 32) :
    (0xC0 ||| h) ≠ 0 ∧ (0xC0 ||| h) &&& 0x80 ≠ 0 ∧ (0xC0 ||| h) &&& 0xE0 = 0xC0 ∧
      (0xC0 ||| h) &&& 0x1F = h := by
  interval_cases h <;> decide

theorem lead3_bits (h : Nat) (hh : h < 16) :
    (0xE0 ||| h) ≠ 0 ∧ (0xE0 ||| h) &&& 0x80 ≠ 0 ∧ (0xE0 ||| h) &&& 0xE0 ≠ 0xC0 ∧
      (0xE0 ||| h) &&& 0xF0 = 0xE0 ∧ (0xE0 ||| h) &&& 0x0F = h := by
  interval_cases h <;> decide

theorem cont_bits (l : Nat) (hl : l < 64) : (0x80 ||| l) &&& 0x3F = l := by
  interval_cases l <;> decide

theorem ascii_bit7 (p : Nat) (hp : p < 0x80) : p &&& 0x80 = 0 := by
  apply Nat.eq_of_testBit_eq
  intro i
  have h80 : (0x80 : Nat) = 2 ^ 7 := by norm_num
  rw [Nat.testBit_and, h80, Nat.testBit_two_pow, Nat.zero_testBit]
  by_cases hi : 7 = i
  · subst hi
    rw [Nat.testBit_lt_two_pow (by omega)]
    rfl
  · simp [hi]

theorem low6 (p : Nat) : p &&& 0x3F = p % 64 := Nat.and_pow_two_sub_one_eq_mod p 6

theorem join2 (h l : Nat) (hl : l < 64) : (h <<< 6) ||| l = h * 64 + l := by
  rw [Nat.shiftLeft_eq, Nat.mul_comm h, ← Nat.mul_add_lt_is_or (by simpa using hl) h]

theorem join3 (h m l : Nat) (hm : m < 64) (hl : l < 64) :
    (h <<< 12) ||| (m <<< 6) ||| l = h * 4096 + m * 64 + l := by
  have h1 : (h <<< 12) ||| (m <<< 6) = (h <<< 6 ||| m) <<< 6 := by
    apply Nat.eq_of_testBit_eq
    intro i
    simp only [Nat.testBit_or, Nat.testBit_shiftLeft]
    by_cases h6 : 6 ≤ i
    · by_cases h12 : 12 ≤ i
      · have h66 : 6 ≤ i - 6 := by omega
        have e : i - 6 - 6 = i - 12 := by omega
        simp [h6, h12, h66, e]
      · have h66 : ¬ 6 ≤ i - 6 := by omega
        simp [h6, h12, h66]
    · have h12 : ¬ 12 ≤ i := by omega
      simp [h6, h12]
  rw [h1, join2 _ l hl, join2 h m hm]
  ring

/-- The decoder inverts the standard encoding on every code point from 1
to 0xFFFF, whatever follows the encoding in the buffer. -/
theorem decode_standardUtf8Encode (p : Nat) (rest : List Nat) (h1 : 1 ≤ p) (h2 : p ≤ 0xFFFF) :
    utf8_char_to_ucs2 (standardUtf8Encode p ++ rest) =
      some (p, (standardUtf8Encode p).length) := by
  unfold standardUtf8Encode
  by_cases ha : p < 0x80
  · have hne : p ≠ 0 := by omega
    simp [ha, utf8_char_to_ucs2, hne, ascii_bit7 p ha]
  · by_cases hb : p < 0x800
    · have hh : p >>> 6 < 32 := by
        rw [Nat.shiftRight_eq_div_pow]
        omega
      obtain ⟨l1, l2, l3, l4⟩ := lead2_bits (p >>> 6) hh
      have hl : p &&& 0x3F < 64 := by
        rw [low6]
        omega
      have hj := join2 (p >>> 6) (p &&& 0x3F) hl
      have hp : (p >>> 6) * 64 + (p &&& 0x3F) = p := by
        rw [low6, Nat.shiftRight_eq_div_pow]
        omega
      simp only [ha, hb, if_false, if_true, List.cons_append, List.nil_append,
        utf8_char_to_ucs2, l1, l2, l3, l4, cont_bits _ hl, hj, hp, List.length_cons,
        List.length_nil]
    · have hh : p >>> 12 < 16 := by
        rw [Nat.shiftRight_eq_div_pow]
        omega
      obtain ⟨l1, l2, l3, l4, l5⟩ := lead3_bits (p >>> 12) hh
      have hm : (p >>> 6) &&& 0x3F < 64 := by
        rw [low6]
        omega
      have hl : p &&& 0x3F < 64 := by
        rw [low6]
        omega
      have hj := join3 (p >>> 12) ((p >>> 6) &&& 0x3F) (p &&& 0x3F) hm hl
      have hp : (p >>> 12) * 4096 + ((p >>> 6) &&& 0x3F) * 64 + (p &&& 0x3F) = p := by
        rw [low6, low6, Nat.shiftRight_eq_div_pow, Nat.shiftRight_eq_div_pow]
        omega
      simp only [ha, hb, if_false, List.cons_append, List.nil_append,
        utf8_char_to_ucs2, l1, l2, l3, l4, l5, cont_bits _ hm, cont_bits _ hl, hj, hp,
        List.length_cons, List.length_nil, if_true]

/-- C2, as stated, fails at the code point 0: its standard encoding is the
single byte 0, of length 1, and on that byte followed by a terminator the
decoder returns the count 0, not 1. -/
theorem C2_counterexample :
    utf8_char_to_ucs2 (standardUtf8Encode 0 ++ [0]) = some (0, 0) ∧
    (standardUtf8Encode 0).length = 1 ∧
    utf8_char_to_ucs2 (standardUtf8Encode 0 ++ [0]) ≠
      some (0, (standardUtf8Encode 0).length) := by
  decide

/-- C2, amended: for every code point `p` in [1, 0xFFFF], `utf8_char_to_ucs2`
applied to the standard UTF-8 encoding of `p` followed by a terminator (and
by anything behind it) stores `p` and returns the length of the encoding;
the length is 1, 2 or 3. -/
theorem C2_decoder_round_trip (p : Nat) (rest : List Nat) (h1 : 1 ≤ p) (h2 : p ≤ 0xFFFF) :
    utf8_char_to_ucs2 (standardUtf8Encode p ++ 0 :: rest) =
      some (p, (standardUtf8Encode p).length) ∧
    (standardUtf8Encode p).length =
      (if p < 0x80 then 1 else if p < 0x800 then 2 else 3) := by
  refine ⟨decode_standardUtf8Encode p (0 :: rest) h1 h2, ?_⟩
  unfold standardUtf8Encode
  split
  · rfl
  · split <;> rfl

/-- C2 (amended) at U+20AC, the euro sign, encoded as E2 82 AC. -/
theorem C2_decoder_round_trip_witness :
    utf8_char_to_ucs2 (standardUtf8Encode 0x20AC ++ 0 :: []) =
      some (0x20AC, (standardUtf8Encode 0x20AC).length) ∧
    (standardUtf8Encode 0x20AC).length =
      (if 0x20AC < 0x80 then 1 else if 0x20AC < 0x800 then 2 else 3) :=
  C2_decoder_round_trip 0x20AC [] (by decide) (by decide)

/-! ## C3 -/

/-- C3, as stated for every integer, fails: the `int` -2147483648 is no case
label of the switch, before and after folding, and `xkb_to_winkey` does not
return the array `{0, 0, 0}` for it, as the call of `isalpha` at line 47 is
outside the domain of `isalpha`. -/
theorem C3_counterexample :
    foldCode (-2147483648) ∉ caseLabels ∧ (-2147483648 : Int) ∉ caseLabels ∧
    xkb_to_winkey_checked (-2147483648) = none ∧
    xkb_to_winkey_checked (-2147483648) ≠ some ⟨0, 0, 0⟩ := by
  decide

/-- C3, amended: for every keysym whose `int` value is at least -128 (the
range in which the call of `isalpha` at line 47 is defined or not made; the
keysym values 0..0x1fffffff of xkbcommon all lie in it) and whose normalized
value (ASCII letters below 128 folded to upper case) is not a case label of
the switch, `xkb_to_winkey` returns, and returns the array `{0, 0, 0}`. -/
theorem C3_unmapped_keysym_gives_sentinel (code : Int) (hrange : -128 ≤ code)
    (h : foldCode code ∉ caseLabels) :
    xkb_to_winkey_checked code = some ⟨0, 0, 0⟩ := by
  rw [xkb_to_winkey_checked_of_ge code hrange]
  unfold xkb_to_winkey
  rw [switchOn_of_not_mem (foldCode code) switchCases h]

/-- C3 (amended) at the keysym 0xffca (F13), which is not a case label. -/
theorem C3_unmapped_keysym_gives_sentinel_witness :
    (-128 : Int) ≤ 0xffca ∧ foldCode 0xffca ∉ caseLabels ∧
    xkb_to_winkey_checked 0xffca = some ⟨0, 0, 0⟩ :=
  ⟨by decide, by decide,
   C3_unmapped_keysym_gives_sentinel 0xffca (by decide) (by decide)⟩

/-! ## C4 -/

/-- C4: for every ASCII letter, given by its upper-case keysym `c` in
`A..Z`, `xkb_to_winkey` returns for the lower-case keysym `c + 0x20` the
array it returns for `c`; and a keysym `code` of value 128 or more is looked
up unchanged (no case folding). -/
theorem C4_letter_case_insensitive (c code : Int) (h1 : 0x41 ≤ c) (h2 : c ≤ 0x5a)
    (h3 : 128 ≤ code) :
    xkb_to_winkey (c + 0x20) = xkb_to_winkey c ∧ foldCode code = code := by
  refine ⟨?_, foldCode_ge_128 code h3⟩
  unfold xkb_to_winkey
  rw [foldCode_lower c h1 h2, foldCode_upper c h1 h2]

/-- C4 at the letter `Q` and the keysym 0xfe (thorn), which lies above 127. -/
theorem C4_letter_case_insensitive_witness :
    xkb_to_winkey (0x51 + 0x20) = xkb_to_winkey 0x51 ∧ foldCode 0xfe = 0xfe :=
  C4_letter_case_insensitive 0x51 0xfe (by decide) (by decide) (by decide)


/-! ## Lemmas on the tracked flags -/

theorem testBit_of_eq_two_pow {f k : Nat} (h : f = 2 ^ k) (i : Nat) :
    f.testBit i = decide (k = i) := by
  rw [h, Nat.testBit_two_pow]

theorem testBit_bitNot32_of_eq_two_pow {f k : Nat} (h : f = 2 ^ k) (hk : k < 32) (i : Nat) :
    (bitNot32 f).testBit i = (decide (i < 32) && !decide (k = i)) := by
  have hff : (0xFFFFFFFF : Nat) = 2 ^ 32 - 1 := by norm_num
  rw [h, bitNot32, Nat.testBit_xor, hff, Nat.testBit_two_pow_sub_one, Nat.testBit_two_pow]
  by_cases hki : k = i
  · subst hki
    simp [hk]
  · simp [hki]

@[simp] theorem testBit_RIGHT_ALT_PRESSED (i : Nat) : RIGHT_ALT_PRESSED.testBit i = decide (0 = i) :=
  testBit_of_eq_two_pow (by decide) i

@[simp] theorem testBit_LEFT_ALT_PRESSED (i : Nat) : LEFT_ALT_PRESSED.testBit i = decide (1 = i) :=
  testBit_of_eq_two_pow (by decide) i

@[simp] theorem testBit_RIGHT_CTRL_PRESSED (i : Nat) : RIGHT_CTRL_PRESSED.testBit i = decide (2 = i) :=
  testBit_of_eq_two_pow (by decide) i

@[simp] theorem testBit_LEFT_CTRL_PRESSED (i : Nat) : LEFT_CTRL_PRESSED.testBit i = decide (3 = i) :=
  testBit_of_eq_two_pow (by decide) i

@[simp] theorem testBit_SHIFT_PRESSED (i : Nat) : SHIFT_PRESSED.testBit i = decide (4 = i) :=
  testBit_of_eq_two_pow (by decide) i

@[simp] theorem testBit_NUMLOCK_ON (i : Nat) : NUMLOCK_ON.testBit i = decide (5 = i) :=
  testBit_of_eq_two_pow (by decide) i

@[simp] theorem testBit_SCROLLLOCK_ON (i : Nat) : SCROLLLOCK_ON.testBit i = decide (6 = i) :=
  testBit_of_eq_two_pow (by decide) i

@[simp] theorem testBit_CAPSLOCK_ON (i : Nat) : CAPSLOCK_ON.testBit i = decide (7 = i) :=
  testBit_of_eq_two_pow (by decide) i

@[simp] theorem testBit_ENHANCED_KEY (i : Nat) : ENHANCED_KEY.testBit i = decide (8 = i) :=
  testBit_of_eq_two_pow (by decide) i

@[simp] theorem testBit_LEFT_SHIFT_PRESSED (i : Nat) : LEFT_SHIFT_PRESSED.testBit i = decide (9 = i) :=
  testBit_of_eq_two_pow (by decide) i

@[simp] theorem testBit_RIGHT_SHIFT_PRESSED (i : Nat) : RIGHT_SHIFT_PRESSED.testBit i = decide (10 = i) :=
  testBit_of_eq_two_pow (by decide) i

@[simp] theorem testBit_bitNot32_RIGHT_ALT_PRESSED (i : Nat) :
    (bitNot32 RIGHT_ALT_PRESSED).testBit i = (decide (i < 32) && !decide (0 = i)) :=
  testBit_bitNot32_of_eq_two_pow (by decide) (by decide) i

@[simp] theorem testBit_bitNot32_LEFT_ALT_PRESSED (i : Nat) :
    (bitNot32 LEFT_ALT_PRESSED).testBit i = (decide (i < 32) && !decide (1 = i)) :=
  testBit_bitNot32_of_eq_two_pow (by decide) (by decide) i

@[simp] theorem testBit_bitNot32_RIGHT_CTRL_PRESSED (i : Nat) :
    (bitNot32 RIGHT_CTRL_PRESSED).testBit i = (decide (i < 32) && !decide (2 = i)) :=
  testBit_bitNot32_of_eq_two_pow (by decide) (by decide) i

@[simp] theorem testBit_bitNot32_LEFT_CTRL_PRESSED (i : Nat) :
    (bitNot32 LEFT_CTRL_PRESSED).testBit i = (decide (i < 32) && !decide (3 = i)) :=
  testBit_bitNot32_of_eq_two_pow (by decide) (by decide) i

@[simp] theorem testBit_bitNot32_SHIFT_PRESSED (i : Nat) :
    (bitNot32 SHIFT_PRESSED).testBit i = (decide (i < 32) && !decide (4 = i)) :=
  testBit_bitNot32_of_eq_two_pow (by decide) (by decide) i

@[simp] theorem testBit_bitNot32_LEFT_SHIFT_PRESSED (i : Nat) :
    (bitNot32 LEFT_SHIFT_PRESSED).testBit i = (decide (i < 32) && !decide (9 = i)) :=
  testBit_bitNot32_of_eq_two_pow (by decide) (by decide) i

@[simp] theorem testBit_bitNot32_RIGHT_SHIFT_PRESSED (i : Nat) :
    (bitNot32 RIGHT_SHIFT_PRESSED).testBit i = (decide (i < 32) && !decide (10 = i)) :=
  testBit_bitNot32_of_eq_two_pow (by decide) (by decide) i

theorem testBit_reconcile_shift (s m i : Nat) (hi : i = 4 ∨ i = 9 ∨ i = 10) :
    (reconcile s m).testBit i = (if m &&& ShiftMask = 0 then false else s.testBit i) := by
  unfold reconcile
  rcases hi with rfl | rfl | rfl <;> split_ifs <;> simp [-Nat.testBit_zero]

theorem testBit_reconcile_ctrl (s m i : Nat) (hi : i = 2 ∨ i = 3) :
    (reconcile s m).testBit i = (if m &&& ControlMask = 0 then false else s.testBit i) := by
  unfold reconcile
  rcases hi with rfl | rfl <;> split_ifs <;> simp [-Nat.testBit_zero]

theorem testBit_reconcile_alt (s m i : Nat) (hi : i = 0 ∨ i = 1) :
    (reconcile s m).testBit i =
      (if m &&& Mod1Mask = 0 ∧ m &&& Mod5Mask = 0 then false else s.testBit i) := by
  unfold reconcile
  rcases hi with rfl | rfl <;> split_ifs <;> simp [-Nat.testBit_zero]

theorem testBit_reconcile_imp (s m i : Nat) (h : (reconcile s m).testBit i = true) :
    s.testBit i = true := by
  unfold reconcile at h
  split_ifs at h <;> simp [-Nat.testBit_zero] at h <;> simp [h]

theorem edgeTransition_of_not_modifier (s : Nat) (sym type : Int)
    (h1 : sym ≠ XKB_KEY_Shift_L) (h2 : sym ≠ XKB_KEY_Shift_R) (h3 : sym ≠ XKB_KEY_Control_L)
    (h4 : sym ≠ XKB_KEY_Control_R) (h5 : sym ≠ XKB_KEY_Alt_L) (h6 : sym ≠ XKB_KEY_Alt_R) :
    edgeTransition s sym type = s := by
  simp [edgeTransition, h1, h2, h3, h4, h5, h6]

theorem edgeTransition_of_not_press_release (s : Nat) (sym type : Int)
    (h1 : type ≠ KeyPress) (h2 : type ≠ KeyRelease) :
    edgeTransition s sym type = s := by
  simp [edgeTransition, h1, h2]

theorem edgeTransition_press (s : Nat) :
    edgeTransition s XKB_KEY_Shift_L KeyPress = (s ||| LEFT_SHIFT_PRESSED) ||| SHIFT_PRESSED ∧
    edgeTransition s XKB_KEY_Shift_R KeyPress = (s ||| RIGHT_SHIFT_PRESSED) ||| SHIFT_PRESSED ∧
    edgeTransition s XKB_KEY_Control_L KeyPress = s ||| LEFT_CTRL_PRESSED ∧
    edgeTransition s XKB_KEY_Control_R KeyPress = s ||| RIGHT_CTRL_PRESSED ∧
    edgeTransition s XKB_KEY_Alt_L KeyPress = s ||| LEFT_ALT_PRESSED ∧
    edgeTransition s XKB_KEY_Alt_R KeyPress = s ||| RIGHT_ALT_PRESSED := by
  simp [edgeTransition, XKB_KEY_Shift_L, XKB_KEY_Shift_R, XKB_KEY_Control_L,
    XKB_KEY_Control_R, XKB_KEY_Alt_L, XKB_KEY_Alt_R, KeyPress, KeyRelease]

theorem edgeTransition_release (s : Nat) :
    edgeTransition s XKB_KEY_Shift_L KeyRelease =
      (s &&& bitNot32 LEFT_SHIFT_PRESSED) &&& bitNot32 SHIFT_PRESSED ∧
    edgeTransition s XKB_KEY_Shift_R KeyRelease =
      (s &&& bitNot32 RIGHT_SHIFT_PRESSED) &&& bitNot32 SHIFT_PRESSED ∧
    edgeTransition s XKB_KEY_Control_L KeyRelease = s &&& bitNot32 LEFT_CTRL_PRESSED ∧
    edgeTransition s XKB_KEY_Control_R KeyRelease = s &&& bitNot32 RIGHT_CTRL_PRESSED ∧
    edgeTransition s XKB_KEY_Alt_L KeyRelease = s &&& bitNot32 LEFT_ALT_PRESSED ∧
    edgeTransition s XKB_KEY_Alt_R KeyRelease = s &&& bitNot32 RIGHT_ALT_PRESSED := by
  simp [edgeTransition, XKB_KEY_Shift_L, XKB_KEY_Shift_R, XKB_KEY_Control_L,
    XKB_KEY_Control_R, XKB_KEY_Alt_L, XKB_KEY_Alt_R, KeyPress, KeyRelease]

/-- The thirteen possible effects of lines 101-114 on `cks`. -/
theorem edgeTransition_cases (s : Nat) (sym type : Int) :
    edgeTransition s sym type = s ∨
    (sym = XKB_KEY_Shift_L ∧ type = KeyPress ∧
      edgeTransition s sym type = (s ||| LEFT_SHIFT_PRESSED) ||| SHIFT_PRESSED) ∨
    (sym = XKB_KEY_Shift_R ∧ type = KeyPress ∧
      edgeTransition s sym type = (s ||| RIGHT_SHIFT_PRESSED) ||| SHIFT_PRESSED) ∨
    (type = KeyPress ∧ (edgeTransition s sym type = s ||| LEFT_CTRL_PRESSED ∨
      edgeTransition s sym type = s ||| RIGHT_CTRL_PRESSED ∨
      edgeTransition s sym type = s ||| LEFT_ALT_PRESSED ∨
      edgeTransition s sym type = s ||| RIGHT_ALT_PRESSED)) ∨
    (type = KeyRelease ∧
      (edgeTransition s sym type = (s &&& bitNot32 LEFT_SHIFT_PRESSED) &&& bitNot32 SHIFT_PRESSED ∨
      edgeTransition s sym type = (s &&& bitNot32 RIGHT_SHIFT_PRESSED) &&& bitNot32 SHIFT_PRESSED ∨
      edgeTransition s sym type = s &&& bitNot32 LEFT_CTRL_PRESSED ∨
      edgeTransition s sym type = s &&& bitNot32 RIGHT_CTRL_PRESSED ∨
      edgeTransition s sym type = s &&& bitNot32 LEFT_ALT_PRESSED ∨
      edgeTransition s sym type = s &&& bitNot32 RIGHT_ALT_PRESSED)) := by
  obtain ⟨p1, p2, p3, p4, p5, p6⟩ := edgeTransition_press s
  obtain ⟨r1, r2, r3, r4, r5, r6⟩ := edgeTransition_release s
  by_cases hp : type = KeyPress
  · subst hp
    by_cases h1 : sym = XKB_KEY_Shift_L
    · subst h1; exact Or.inr (Or.inl ⟨rfl, rfl, p1⟩)
    by_cases h2 : sym = XKB_KEY_Shift_R
    · subst h2; exact Or.inr (Or.inr (Or.inl ⟨rfl, rfl, p2⟩))
    by_cases h3 : sym = XKB_KEY_Control_L
    · subst h3; exact Or.inr (Or.inr (Or.inr (Or.inl ⟨rfl, Or.inl p3⟩)))
    by_cases h4 : sym = XKB_KEY_Control_R
    · subst h4; exact Or.inr (Or.inr (Or.inr (Or.inl ⟨rfl, Or.inr (Or.inl p4)⟩)))
    by_cases h5 : sym = XKB_KEY_Alt_L
    · subst h5; exact Or.inr (Or.inr (Or.inr (Or.inl ⟨rfl, Or.inr (Or.inr (Or.inl p5))⟩)))
    by_cases h6 : sym = XKB_KEY_Alt_R
    · subst h6; exact Or.inr (Or.inr (Or.inr (Or.inl ⟨rfl, Or.inr (Or.inr (Or.inr p6))⟩)))
    exact Or.inl (edgeTransition_of_not_modifier s sym _ h1 h2 h3 h4 h5 h6)
  · by_cases hr : type = KeyRelease
    · subst hr
      by_cases h1 : sym = XKB_KEY_Shift_L
      · subst h1; exact Or.inr (Or.inr (Or.inr (Or.inr ⟨rfl, Or.inl r1⟩)))
      by_cases h2 : sym = XKB_KEY_Shift_R
      · subst h2; exact Or.inr (Or.inr (Or.inr (Or.inr ⟨rfl, Or.inr (Or.inl r2)⟩)))
      by_cases h3 : sym = XKB_KEY_Control_L
      · subst h3; exact Or.inr (Or.inr (Or.inr (Or.inr ⟨rfl, Or.inr (Or.inr (Or.inl r3))⟩)))
      by_cases h4 : sym = XKB_KEY_Control_R
      · subst h4
        exact Or.inr (Or.inr (Or.inr (Or.inr ⟨rfl, Or.inr (Or.inr (Or.inr (Or.inl r4)))⟩)))
      by_cases h5 : sym = XKB_KEY_Alt_L
      · subst h5
        exact Or.inr (Or.inr (Or.inr (Or.inr
          ⟨rfl, Or.inr (Or.inr (Or.inr (Or.inr (Or.inl r5))))⟩)))
      by_cases h6 : sym = XKB_KEY_Alt_R
      · subst h6
        exact Or.inr (Or.inr (Or.inr (Or.inr
          ⟨rfl, Or.inr (Or.inr (Or.inr (Or.inr (Or.inr r6))))⟩)))
      exact Or.inl (edgeTransition_of_not_modifier s sym _ h1 h2 h3 h4 h5 h6)
    · exact Or.inl (edgeTransition_of_not_press_release s sym type hp hr)


theorem TrackedOnly.or {s f : Nat} (hs : TrackedOnly s) (hf : TrackedOnly f) :
    TrackedOnly (s ||| f) := by
  intro i hi
  rw [Nat.testBit_or, Bool.or_eq_true] at hi
  rcases hi with h | h
  · exact hs i h
  · exact hf i h

theorem TrackedOnly.and {s : Nat} (hs : TrackedOnly s) (n : Nat) : TrackedOnly (s &&& n) := by
  intro i hi
  rw [Nat.testBit_and, Bool.and_eq_true] at hi
  exact hs i hi.1

theorem trackedOnly_flags :
    TrackedOnly RIGHT_ALT_PRESSED ∧ TrackedOnly LEFT_ALT_PRESSED ∧
    TrackedOnly RIGHT_CTRL_PRESSED ∧ TrackedOnly LEFT_CTRL_PRESSED ∧
    TrackedOnly SHIFT_PRESSED ∧ TrackedOnly LEFT_SHIFT_PRESSED ∧
    TrackedOnly RIGHT_SHIFT_PRESSED := by
  refine ⟨?_, ?_, ?_, ?_, ?_, ?_, ?_⟩ <;> intro i hi <;>
    simp [-Nat.testBit_zero] at hi <;> omega

theorem TrackedOnly.reconcile {s : Nat} (hs : TrackedOnly s) (m : Nat) :
    TrackedOnly (reconcile s m) :=
  fun i hi => hs i (testBit_reconcile_imp s m i hi)

theorem TrackedOnly.edgeTransition {s : Nat} (hs : TrackedOnly s) (sym type : Int) :
    TrackedOnly (edgeTransition s sym type) := by
  obtain ⟨f0, f1, f2, f3, f4, f9, f10⟩ := trackedOnly_flags
  rcases edgeTransition_cases s sym type with h | ⟨-, -, h⟩ | ⟨-, -, h⟩ |
      ⟨-, h | h | h | h⟩ | ⟨-, h | h | h | h | h | h⟩ <;> rw [h]
  · exact hs
  · exact (hs.or f9).or f4
  · exact (hs.or f10).or f4
  · exact hs.or f3
  · exact hs.or f2
  · exact hs.or f1
  · exact hs.or f0
  · exact (hs.and _).and _
  · exact (hs.and _).and _
  · exact hs.and _
  · exact hs.and _
  · exact hs.and _
  · exact hs.and _

theorem TrackedOnly.updateCks {s : Nat} (hs : TrackedOnly s) (ev : KeyEvent) :
    TrackedOnly (updateCks s ev) :=
  (hs.reconcile ev.state).edgeTransition ev.sym ev.type

theorem trackedOnly_foldl (evs : List KeyEvent) :
    ∀ s, TrackedOnly s → TrackedOnly (evs.foldl updateCks s) := by
  induction evs with
  | nil => exact fun s hs => hs
  | cons ev evs ih => exact fun s hs => ih _ (hs.updateCks ev)

/-- Every value of `cks` reached from the initial 0 has bits only at the
tracked positions. -/
theorem trackedOnly_cksAfter (evs : List KeyEvent) : TrackedOnly (cksAfter evs) :=
  trackedOnly_foldl evs 0 (fun i hi => by simp at hi)

theorem cks_current_eq (c : Nat) (w : WinKeyData) (st : Nat) :
    cks_current c w st =
      c ||| (if w.enhanced ≠ 0 then ENHANCED_KEY else 0)
        ||| (if st &&& LockMask ≠ 0 then CAPSLOCK_ON else 0)
        ||| (if st &&& Mod2Mask ≠ 0 then NUMLOCK_ON else 0)
        ||| (if st &&& Mod3Mask ≠ 0 then SCROLLLOCK_ON else 0) := by
  unfold cks_current
  split_ifs <;> simp

theorem testBit_cks_current (c : Nat) (w : WinKeyData) (st i : Nat) :
    (cks_current c w st).testBit i =
      (c.testBit i || (decide (w.enhanced ≠ 0) && decide (8 = i))
        || (decide (st &&& LockMask ≠ 0) && decide (7 = i))
        || (decide (st &&& Mod2Mask ≠ 0) && decide (5 = i))
        || (decide (st &&& Mod3Mask ≠ 0) && decide (6 = i))) := by
  rw [cks_current_eq]
  by_cases h1 : w.enhanced = 0 <;> by_cases h2 : st &&& LockMask = 0 <;>
    by_cases h3 : st &&& Mod2Mask = 0 <;> by_cases h4 : st &&& Mod3Mask = 0 <;>
    simp [-Nat.testBit_zero, h1, h2, h3, h4]

/-- Every sequence printed by the loop carries the key codes, the key-down
flag and the dwControlKeyState the loop was entered with, and the repeat
count 1. -/
theorem emitLoop_fields (w : WinKeyData) (type : Int) (c : Nat) (buf : List Nat) :
    ∀ (fuel offset : Nat) (first : Bool) (r : EscSequence),
      r ∈ (emitLoop w type c buf fuel offset first).1 →
      r.VirtualKeyCode = w.vk ∧ r.VirtualScanCode = w.scan ∧
      r.KeyDown = (if type = KeyPress then 1 else 0) ∧
      r.dwControlKeyState = c ∧ r.RepeatCount = 1 := by
  intro fuel
  induction fuel with
  | zero =>
    intro offset first r hr
    simp [emitLoop] at hr
  | succ n ih =>
    intro offset first r hr
    unfold emitLoop at hr
    cases hd : utf8_char_to_ucs2 (List.drop offset buf) with
    | none =>
      simp [hd] at hr
    | some cn =>
      obtain ⟨ch, numread⟩ := cn
      simp only [hd] at hr
      split_ifs at hr with hc
      · rw [List.mem_cons] at hr
        rcases hr with h | h
        · subst h
          simp [escSequence]
        · exact ih _ _ r h
      · simp at hr


theorem handleEvent_eq (s : Nat) (ev : KeyEvent) (buf : List Nat) :
    handleEvent s ev buf =
      (updateCks s ev,
        emitLoop (xkb_to_winkey (keysymToInt ev.sym)) ev.type (eventControlKeyState s ev) buf
          (buf.length + 2) 0 true) := rfl

theorem testBit_eventControlKeyState (s : Nat) (ev : KeyEvent) (i : Nat)
    (h5 : i ≠ 5) (h6 : i ≠ 6) (h7 : i ≠ 7) (h8 : i ≠ 8) :
    (eventControlKeyState s ev).testBit i = (updateCks s ev).testBit i := by
  unfold eventControlKeyState
  rw [testBit_cks_current]
  simp [Ne.symm h5, Ne.symm h6, Ne.symm h7, Ne.symm h8]

/-- The flags of the families a modifier key does not belong to pass
through lines 101-114 unchanged, whatever the event type. -/
theorem edgeTransition_other_families (s : Nat) (type : Int) :
    agreeOn [0, 1, 2, 3] (edgeTransition s XKB_KEY_Shift_L type) s ∧
    agreeOn [0, 1, 2, 3] (edgeTransition s XKB_KEY_Shift_R type) s ∧
    agreeOn [0, 1, 4, 9, 10] (edgeTransition s XKB_KEY_Control_L type) s ∧
    agreeOn [0, 1, 4, 9, 10] (edgeTransition s XKB_KEY_Control_R type) s ∧
    agreeOn [2, 3, 4, 9, 10] (edgeTransition s XKB_KEY_Alt_L type) s ∧
    agreeOn [2, 3, 4, 9, 10] (edgeTransition s XKB_KEY_Alt_R type) s := by
  obtain ⟨p1, p2, p3, p4, p5, p6⟩ := edgeTransition_press s
  obtain ⟨r1, r2, r3, r4, r5, r6⟩ := edgeTransition_release s
  by_cases hp : type = KeyPress
  · subst hp
    rw [p1, p2, p3, p4, p5, p6]
    simp [agreeOn, -Nat.testBit_zero]
  · by_cases hr : type = KeyRelease
    · subst hr
      rw [r1, r2, r3, r4, r5, r6]
      simp [agreeOn, -Nat.testBit_zero]
    · simp only [edgeTransition_of_not_press_release _ _ _ hp hr]
      simp [agreeOn]

/-! ## C5 -/

/-- C5: for every tracker state `s` and every event `ev` whose keysym is
none of Shift_L, Shift_R, Control_L, Control_R, Alt_L, Alt_R, the state after
the event has bits 4, 9, 10 (any/left/right Shift) clear if the mask lacks
ShiftMask and unchanged otherwise, bits 2, 3 (right/left Ctrl) clear if the
mask lacks ControlMask and unchanged otherwise, bits 0, 1 (right/left Alt)
clear if the mask lacks both Mod1Mask and Mod5Mask and unchanged otherwise.
In particular a Control_L key-down (any mask `m1`) sets bit 3, and after it
such an event `ev` leaves bit 3 clear when its mask lacks ControlMask (and set
otherwise). -/
theorem C5_self_healing_reconciliation (s m1 : Nat) (ev : KeyEvent)
    (h1 : ev.sym ≠ XKB_KEY_Shift_L) (h2 : ev.sym ≠ XKB_KEY_Shift_R)
    (h3 : ev.sym ≠ XKB_KEY_Control_L) (h4 : ev.sym ≠ XKB_KEY_Control_R)
    (h5 : ev.sym ≠ XKB_KEY_Alt_L) (h6 : ev.sym ≠ XKB_KEY_Alt_R) :
    ((updateCks s ev).testBit 4 = (if ev.state &&& ShiftMask = 0 then false else s.testBit 4) ∧
     (updateCks s ev).testBit 9 = (if ev.state &&& ShiftMask = 0 then false else s.testBit 9) ∧
     (updateCks s ev).testBit 10 =
       (if ev.state &&& ShiftMask = 0 then false else s.testBit 10)) ∧
    ((updateCks s ev).testBit 2 =
       (if ev.state &&& ControlMask = 0 then false else s.testBit 2) ∧
     (updateCks s ev).testBit 3 =
       (if ev.state &&& ControlMask = 0 then false else s.testBit 3)) ∧
    ((updateCks s ev).testBit 0 =
       (if ev.state &&& Mod1Mask = 0 ∧ ev.state &&& Mod5Mask = 0 then false
        else s.testBit 0) ∧
     (updateCks s ev).testBit 1 =
       (if ev.state &&& Mod1Mask = 0 ∧ ev.state &&& Mod5Mask = 0 then false
        else s.testBit 1)) ∧
    (updateCks s ⟨XKB_KEY_Control_L, KeyPress, m1⟩).testBit 3 = true ∧
    (updateCks (updateCks s ⟨XKB_KEY_Control_L, KeyPress, m1⟩) ev).testBit 3 =
      (if ev.state &&& ControlMask = 0 then false else true) := by
  have he : ∀ t, updateCks t ev = reconcile t ev.state := fun t => by
    unfold updateCks
    exact edgeTransition_of_not_modifier _ _ _ h1 h2 h3 h4 h5 h6
  have hc : (updateCks s ⟨XKB_KEY_Control_L, KeyPress, m1⟩).testBit 3 = true := by
    unfold updateCks
    rw [(edgeTransition_press _).2.2.1]
    simp
  refine ⟨⟨?_, ?_, ?_⟩, ⟨?_, ?_⟩, ⟨?_, ?_⟩, hc, ?_⟩
  · rw [he, testBit_reconcile_shift _ _ _ (Or.inl rfl)]
  · rw [he, testBit_reconcile_shift _ _ _ (Or.inr (Or.inl rfl))]
  · rw [he, testBit_reconcile_shift _ _ _ (Or.inr (Or.inr rfl))]
  · rw [he, testBit_reconcile_ctrl _ _ _ (Or.inl rfl)]
  · rw [he, testBit_reconcile_ctrl _ _ _ (Or.inr rfl)]
  · rw [he, testBit_reconcile_alt _ _ _ (Or.inl rfl)]
  · rw [he, testBit_reconcile_alt _ _ _ (Or.inr rfl)]
  · rw [he, testBit_reconcile_ctrl _ _ _ (Or.inr rfl), hc]

/-- C5 at the state 0x61F (all seven flags set) and a release of the key
`A` whose mask reports Mod1 only: the Shift and Ctrl flags are cleared, the
Alt flags stay. -/
theorem C5_self_healing_reconciliation_witness :
    ((updateCks 0x61F ⟨XKB_KEY_A, KeyRelease, Mod1Mask⟩).testBit 4 = false ∧
     (updateCks 0x61F ⟨XKB_KEY_A, KeyRelease, Mod1Mask⟩).testBit 3 = false ∧
     (updateCks 0x61F ⟨XKB_KEY_A, KeyRelease, Mod1Mask⟩).testBit 1 = true) ∧
    (updateCks (updateCks 0x61F ⟨XKB_KEY_Control_L, KeyPress, ControlMask⟩)
      ⟨XKB_KEY_A, KeyRelease, Mod1Mask⟩).testBit 3 = false := by
  have h := C5_self_healing_reconciliation 0x61F ControlMask
    ⟨XKB_KEY_A, KeyRelease, Mod1Mask⟩ (by decide) (by decide) (by decide) (by decide)
    (by decide) (by decide)
  obtain ⟨⟨a, -, -⟩, ⟨-, b⟩, ⟨-, c⟩, -, d⟩ := h
  exact ⟨⟨a, b, c⟩, d⟩


/-! ## C6 -/

theorem updateCks_no_shift_press (s : Nat) (ev : KeyEvent)
    (hmask : ev.state &&& ShiftMask = 0)
    (hL : ¬ (ev.sym = XKB_KEY_Shift_L ∧ ev.type = KeyPress))
    (hR : ¬ (ev.sym = XKB_KEY_Shift_R ∧ ev.type = KeyPress)) :
    (updateCks s ev).testBit 9 = false ∧ (updateCks s ev).testBit 4 = false := by
  have h9 : (reconcile s ev.state).testBit 9 = false := by
    rw [testBit_reconcile_shift _ _ _ (Or.inr (Or.inl rfl)), if_pos hmask]
  have h4 : (reconcile s ev.state).testBit 4 = false := by
    rw [testBit_reconcile_shift _ _ _ (Or.inl rfl), if_pos hmask]
  unfold updateCks
  rcases edgeTransition_cases (reconcile s ev.state) ev.sym ev.type with h | ⟨a, b, -⟩ |
      ⟨a, b, -⟩ | ⟨-, h | h | h | h⟩ | ⟨-, h | h | h | h | h | h⟩
  · rw [h]; exact ⟨h9, h4⟩
  · exact absurd ⟨a, b⟩ hL
  · exact absurd ⟨a, b⟩ hR
  all_goals rw [h]; simp [-Nat.testBit_zero, h9, h4]

/-- C6, as stated, fails: the Shift_L key-down whose mask is 0 is an event
whose mask lacks the Shift family, and after it (from the state 0) bit 9 and
bit 4 of the printed dwControlKeyState 0x210 are set, not clear; after the
Shift_R key-down with mask 0 bit 4 is set. -/
theorem C6_counterexample :
    (0 : Nat) &&& ShiftMask = 0 ∧
    eventControlKeyState 0 ⟨XKB_KEY_Shift_L, KeyPress, 0⟩ = 0x210 ∧
    (eventControlKeyState 0 ⟨XKB_KEY_Shift_L, KeyPress, 0⟩).testBit 9 = true ∧
    (eventControlKeyState 0 ⟨XKB_KEY_Shift_L, KeyPress, 0⟩).testBit 4 = true ∧
    (eventControlKeyState 0 ⟨XKB_KEY_Shift_R, KeyPress, 0⟩).testBit 4 = true ∧
    ¬ ∀ (s : Nat) (ev : KeyEvent), ev.state &&& ShiftMask = 0 →
        (eventControlKeyState s ev).testBit 9 = false ∧
        (eventControlKeyState s ev).testBit 4 = false := by
  refine ⟨by decide, by decide, by decide, by decide, by decide, fun h => ?_⟩
  have h0 := (h 0 ⟨XKB_KEY_Shift_L, KeyPress, 0⟩ (by decide)).1
  exact absurd h0 (by decide)

/-- C6, amended: for every tracker state `s`: after a Shift_L key-down
event (any mask `m`) bit 9 and bit 4 of dwControlKeyState are both set;
after a Shift_L key-release event (any mask `m`), and after any event `ev`
other than a Shift_L or Shift_R key-down whose mask lacks ShiftMask, bit 9
and bit 4 are both clear. -/
theorem C6_shift_left_flags (s m : Nat) (ev : KeyEvent)
    (hmask : ev.state &&& ShiftMask = 0)
    (hL : ¬ (ev.sym = XKB_KEY_Shift_L ∧ ev.type = KeyPress))
    (hR : ¬ (ev.sym = XKB_KEY_Shift_R ∧ ev.type = KeyPress)) :
    ((eventControlKeyState s ⟨XKB_KEY_Shift_L, KeyPress, m⟩).testBit 9 = true ∧
     (eventControlKeyState s ⟨XKB_KEY_Shift_L, KeyPress, m⟩).testBit 4 = true) ∧
    ((eventControlKeyState s ⟨XKB_KEY_Shift_L, KeyRelease, m⟩).testBit 9 = false ∧
     (eventControlKeyState s ⟨XKB_KEY_Shift_L, KeyRelease, m⟩).testBit 4 = false) ∧
    ((eventControlKeyState s ev).testBit 9 = false ∧
     (eventControlKeyState s ev).testBit 4 = false) := by
  have e9 : ∀ e, (eventControlKeyState s e).testBit 9 = (updateCks s e).testBit 9 :=
    fun e => testBit_eventControlKeyState s e 9 (by decide) (by decide) (by decide) (by decide)
  have e4 : ∀ e, (eventControlKeyState s e).testBit 4 = (updateCks s e).testBit 4 :=
    fun e => testBit_eventControlKeyState s e 4 (by decide) (by decide) (by decide) (by decide)
  simp only [e9, e4]
  refine ⟨?_, ?_, updateCks_no_shift_press s ev hmask hL hR⟩
  · unfold updateCks
    rw [(edgeTransition_press _).1]
    simp
  · unfold updateCks
    rw [(edgeTransition_release _).1]
    simp

/-- C6 (amended) at the state 0x210 (left Shift held), the mask ShiftMask
for the Shift_L events, and a press of `A` whose mask is 0. -/
theorem C6_shift_left_flags_witness :
    ((eventControlKeyState 0x210 ⟨XKB_KEY_Shift_L, KeyPress, ShiftMask⟩).testBit 9 = true ∧
     (eventControlKeyState 0x210 ⟨XKB_KEY_Shift_L, KeyPress, ShiftMask⟩).testBit 4 = true) ∧
    ((eventControlKeyState 0x210 ⟨XKB_KEY_Shift_L, KeyRelease, ShiftMask⟩).testBit 9 = false ∧
     (eventControlKeyState 0x210 ⟨XKB_KEY_Shift_L, KeyRelease, ShiftMask⟩).testBit 4 = false) ∧
    ((eventControlKeyState 0x210 ⟨XKB_KEY_A, KeyPress, 0⟩).testBit 9 = false ∧
     (eventControlKeyState 0x210 ⟨XKB_KEY_A, KeyPress, 0⟩).testBit 4 = false) :=
  C6_shift_left_flags 0x210 ShiftMask ⟨XKB_KEY_A, KeyPress, 0⟩ (by decide) (by decide)
    (by decide)

/-! ## C7 -/

/-- C7: for every tracker state `s` and mask `m`: after a key-down of
Shift_L, Shift_R, Control_L, Control_R, Alt_L, Alt_R the bit 9, 10, 3, 2, 1, 0
respectively is set, after a key-release of that key it is clear, and for
every event type the bits of the other two families after the event are those
left by the reconciliation against the mask alone. -/
theorem C7_edge_transitions (s m : Nat) (type : Int) :
    ((updateCks s ⟨XKB_KEY_Shift_L, KeyPress, m⟩).testBit 9 = true ∧
     (updateCks s ⟨XKB_KEY_Shift_L, KeyRelease, m⟩).testBit 9 = false) ∧
    ((updateCks s ⟨XKB_KEY_Shift_R, KeyPress, m⟩).testBit 10 = true ∧
     (updateCks s ⟨XKB_KEY_Shift_R, KeyRelease, m⟩).testBit 10 = false) ∧
    ((updateCks s ⟨XKB_KEY_Control_L, KeyPress, m⟩).testBit 3 = true ∧
     (updateCks s ⟨XKB_KEY_Control_L, KeyRelease, m⟩).testBit 3 = false) ∧
    ((updateCks s ⟨XKB_KEY_Control_R, KeyPress, m⟩).testBit 2 = true ∧
     (updateCks s ⟨XKB_KEY_Control_R, KeyRelease, m⟩).testBit 2 = false) ∧
    ((updateCks s ⟨XKB_KEY_Alt_L, KeyPress, m⟩).testBit 1 = true ∧
     (updateCks s ⟨XKB_KEY_Alt_L, KeyRelease, m⟩).testBit 1 = false) ∧
    ((updateCks s ⟨XKB_KEY_Alt_R, KeyPress, m⟩).testBit 0 = true ∧
     (updateCks s ⟨XKB_KEY_Alt_R, KeyRelease, m⟩).testBit 0 = false) ∧
    agreeOn [0, 1, 2, 3] (updateCks s ⟨XKB_KEY_Shift_L, type, m⟩) (reconcile s m) ∧
    agreeOn [0, 1, 2, 3] (updateCks s ⟨XKB_KEY_Shift_R, type, m⟩) (reconcile s m) ∧
    agreeOn [0, 1, 4, 9, 10] (updateCks s ⟨XKB_KEY_Control_L, type, m⟩) (reconcile s m) ∧
    agreeOn [0, 1, 4, 9, 10] (updateCks s ⟨XKB_KEY_Control_R, type, m⟩) (reconcile s m) ∧
    agreeOn [2, 3, 4, 9, 10] (updateCks s ⟨XKB_KEY_Alt_L, type, m⟩) (reconcile s m) ∧
    agreeOn [2, 3, 4, 9, 10] (updateCks s ⟨XKB_KEY_Alt_R, type, m⟩) (reconcile s m) := by
  obtain ⟨p1, p2, p3, p4, p5, p6⟩ := edgeTransition_press (reconcile s m)
  obtain ⟨r1, r2, r3, r4, r5, r6⟩ := edgeTransition_release (reconcile s m)
  obtain ⟨a1, a2, a3, a4, a5, a6⟩ := edgeTransition_other_families (reconcile s m) type
  unfold updateCks
  refine ⟨⟨?_, ?_⟩, ⟨?_, ?_⟩, ⟨?_, ?_⟩, ⟨?_, ?_⟩, ⟨?_, ?_⟩, ⟨?_, ?_⟩, a1, a2, a3, a4, a5, a6⟩
  · simp only [p1]; simp [-Nat.testBit_zero]
  · simp only [r1]; simp [-Nat.testBit_zero]
  · simp only [p2]; simp [-Nat.testBit_zero]
  · simp only [r2]; simp [-Nat.testBit_zero]
  · simp only [p3]; simp [-Nat.testBit_zero]
  · simp only [r3]; simp [-Nat.testBit_zero]
  · simp only [p4]; simp [-Nat.testBit_zero]
  · simp only [r4]; simp [-Nat.testBit_zero]
  · simp only [p5]; simp [-Nat.testBit_zero]
  · simp only [r5]; simp [-Nat.testBit_zero]
  · simp only [p6]; simp [-Nat.testBit_zero]
  · simp only [r6]; simp [-Nat.testBit_zero]

/-! ## C8 -/

/-- C8: for every event `ev` processed from a state reached from the
initial 0 by any sequence `evs` of events, every sequence `r` printed for the
event has a dwControlKeyState equal to the bitwise OR of the tracked state
after the event, ENHANCED_KEY iff the translated array has a non-zero third
byte, CAPSLOCK_ON iff the mask has LockMask, NUMLOCK_ON iff the mask has
Mod2Mask, SCROLLLOCK_ON iff the mask has Mod3Mask; bits 8, 7, 5, 6 of it are
set exactly under those conditions, its bits 0-4, 9, 10 are those of the
tracked state, and no bit outside bits 0-10 is set. -/
theorem C8_control_key_state_assembly (evs : List KeyEvent) (ev : KeyEvent)
    (buf : List Nat) (r : EscSequence)
    (hr : r ∈ (handleEvent (cksAfter evs) ev buf).2.1) :
    r.dwControlKeyState =
      updateCks (cksAfter evs) ev
        ||| (if (xkb_to_winkey (keysymToInt ev.sym)).enhanced ≠ 0 then ENHANCED_KEY else 0)
        ||| (if ev.state &&& LockMask ≠ 0 then CAPSLOCK_ON else 0)
        ||| (if ev.state &&& Mod2Mask ≠ 0 then NUMLOCK_ON else 0)
        ||| (if ev.state &&& Mod3Mask ≠ 0 then SCROLLLOCK_ON else 0) ∧
    (r.dwControlKeyState.testBit 8 = true ↔
      (xkb_to_winkey (keysymToInt ev.sym)).enhanced ≠ 0) ∧
    (r.dwControlKeyState.testBit 7 = true ↔ ev.state &&& LockMask ≠ 0) ∧
    (r.dwControlKeyState.testBit 5 = true ↔ ev.state &&& Mod2Mask ≠ 0) ∧
    (r.dwControlKeyState.testBit 6 = true ↔ ev.state &&& Mod3Mask ≠ 0) ∧
    agreeOn [0, 1, 2, 3, 4, 9, 10] r.dwControlKeyState (updateCks (cksAfter evs) ev) ∧
    r.dwControlKeyState < 2 ^ 11 := by
  have hc : r.dwControlKeyState = eventControlKeyState (cksAfter evs) ev := by
    rw [handleEvent_eq] at hr
    exact (emitLoop_fields _ _ _ _ _ _ _ r hr).2.2.2.1
  have ht : TrackedOnly (updateCks (cksAfter evs) ev) :=
    (trackedOnly_cksAfter evs).updateCks ev
  have hb : ∀ i, i ≠ 0 → i ≠ 1 → i ≠ 2 → i ≠ 3 → i ≠ 4 → i ≠ 9 → i ≠ 10 →
      (updateCks (cksAfter evs) ev).testBit i = false := by
    intro i i0 i1 i2 i3 i4 i9 i10
    cases hv : (updateCks (cksAfter evs) ev).testBit i with
    | false => rfl
    | true =>
      rcases ht i hv with h | h | h | h | h | h | h
      · exact absurd h i0
      · exact absurd h i1
      · exact absurd h i2
      · exact absurd h i3
      · exact absurd h i4
      · exact absurd h i9
      · exact absurd h i10
  rw [hc]
  refine ⟨cks_current_eq _ _ _, ?_, ?_, ?_, ?_, ?_, ?_⟩
  · unfold eventControlKeyState
    rw [testBit_cks_current, hb 8 (by decide) (by decide) (by decide) (by decide) (by decide)
      (by decide) (by decide)]
    simp
  · unfold eventControlKeyState
    rw [testBit_cks_current, hb 7 (by decide) (by decide) (by decide) (by decide) (by decide)
      (by decide) (by decide)]
    simp
  · unfold eventControlKeyState
    rw [testBit_cks_current, hb 5 (by decide) (by decide) (by decide) (by decide) (by decide)
      (by decide) (by decide)]
    simp
  · unfold eventControlKeyState
    rw [testBit_cks_current, hb 6 (by decide) (by decide) (by decide) (by decide) (by decide)
      (by decide) (by decide)]
    simp
  · intro i hi
    have hi2 : i ≠ 5 ∧ i ≠ 6 ∧ i ≠ 7 ∧ i ≠ 8 := by
      simp only [List.mem_cons, List.mem_singleton, List.not_mem_nil, or_false] at hi
      omega
    exact testBit_eventControlKeyState _ _ i hi2.1 hi2.2.1 hi2.2.2.1 hi2.2.2.2
  · apply Nat.lt_pow_two_of_testBit
    intro i hi
    unfold eventControlKeyState
    rw [testBit_cks_current, hb i (by omega) (by omega) (by omega) (by omega) (by omega)
      (by omega) (by omega)]
    have h8 : ¬ 8 = i := by omega
    have h7 : ¬ 7 = i := by omega
    have h5 : ¬ 5 = i := by omega
    have h6 : ¬ 6 = i := by omega
    simp [h8, h7, h5, h6]

/-- C8 after a Shift_L key-down, at a key-down of KP_Enter with the mask
ShiftMask + Mod2Mask and the payload of one carriage return: the printed
dwControlKeyState is 0x330. -/
theorem C8_control_key_state_assembly_witness :
    (⟨13, 28, 13, 1, 0x330, 1⟩ : EscSequence) ∈
      (handleEvent (cksAfter [⟨XKB_KEY_Shift_L, KeyPress, 0⟩])
        ⟨XKB_KEY_KP_Enter, KeyPress, 17⟩ [13, 0]).2.1 ∧
    (0x330 : Nat) =
      updateCks (cksAfter [⟨XKB_KEY_Shift_L, KeyPress, 0⟩]) ⟨XKB_KEY_KP_Enter, KeyPress, 17⟩
        ||| (if (xkb_to_winkey (keysymToInt XKB_KEY_KP_Enter)).enhanced ≠ 0
              then ENHANCED_KEY else 0)
        ||| (if 17 &&& LockMask ≠ 0 then CAPSLOCK_ON else 0)
        ||| (if 17 &&& Mod2Mask ≠ 0 then NUMLOCK_ON else 0)
        ||| (if 17 &&& Mod3Mask ≠ 0 then SCROLLLOCK_ON else 0) ∧
    (0x330 : Nat) < 2 ^ 11 := by
  have hm : (⟨13, 28, 13, 1, 0x330, 1⟩ : EscSequence) ∈
      (handleEvent (cksAfter [⟨XKB_KEY_Shift_L, KeyPress, 0⟩])
        ⟨XKB_KEY_KP_Enter, KeyPress, 17⟩ [13, 0]).2.1 := by decide
  have h := C8_control_key_state_assembly [⟨XKB_KEY_Shift_L, KeyPress, 0⟩]
    ⟨XKB_KEY_KP_Enter, KeyPress, 17⟩ [13, 0] ⟨13, 28, 13, 1, 0x330, 1⟩ hm
  exact ⟨hm, h.1, h.2.2.2.2.2.2⟩


/-! ## Lemmas on the loop of lines 153-169 -/

theorem utf8_char_to_ucs2_le (l : List Nat) (ch n : Nat)
    (h : utf8_char_to_ucs2 l = some (ch, n)) : n ≤ l.length := by
  match l, h with
  | [], h => simp [utf8_char_to_ucs2] at h
  | b0 :: [], h =>
    simp only [utf8_char_to_ucs2] at h
    split_ifs at h <;>
      (simp only [Option.some.injEq, Prod.mk.injEq] at h
       simp only [List.length_cons, List.length_nil]
       omega)
  | b0 :: b1 :: [], h =>
    simp only [utf8_char_to_ucs2] at h
    split_ifs at h <;>
      (simp only [Option.some.injEq, Prod.mk.injEq] at h
       simp only [List.length_cons, List.length_nil]
       omega)
  | b0 :: b1 :: b2 :: t, h =>
    simp only [utf8_char_to_ucs2] at h
    split_ifs at h <;>
      (simp only [Option.some.injEq, Prod.mk.injEq] at h
       simp only [List.length_cons, List.length_nil]
       omega)

theorem utf8_char_to_ucs2_isSome (l : List Nat) (h : 3 ≤ l.length) :
    ∃ ch n, utf8_char_to_ucs2 l = some (ch, n) := by
  match l, h with
  | b0 :: b1 :: b2 :: t, _ =>
    simp only [utf8_char_to_ucs2]
    split_ifs <;> exact ⟨_, _, rfl⟩

/-- The fuel `buf.length + 2` is never used up: a run of the loop from any
offset ends by `break` or by a fault once the fuel exceeds the number of
bytes left by one (by two on the first iteration). -/
theorem emitLoop_fuel (w : WinKeyData) (type : Int) (c : Nat) (buf : List Nat) :
    ∀ (fuel offset : Nat) (first : Bool),
      buf.length - offset + (if first = true then 2 else 1) ≤ fuel →
      (emitLoop w type c buf fuel offset first).2 ≠ LoopExit.fuel := by
  intro fuel
  induction fuel with
  | zero =>
    intro offset first h
    split_ifs at h <;> omega
  | succ n ih =>
    intro offset first h
    unfold emitLoop
    cases hd : utf8_char_to_ucs2 (List.drop offset buf) with
    | none => simp
    | some cn =>
      obtain ⟨ch, numread⟩ := cn
      have hle := utf8_char_to_ucs2_le _ _ _ hd
      rw [List.length_drop] at hle
      simp only []
      split_ifs with hc
      · simp only []
        apply ih
        simp only [Bool.false_eq_true, if_false]
        rcases hc with hc | hc
        · split_ifs at h <;> omega
        · simp only [hc, if_true] at h
          omega
      · simp

theorem length_le_standardUtf8EncodeAll (cps : List Nat) :
    cps.length ≤ (standardUtf8EncodeAll cps).length := by
  induction cps with
  | nil => simp
  | cons p ps ih =>
    have h1 : 1 ≤ (standardUtf8Encode p).length := by
      unfold standardUtf8Encode
      split_ifs <;> simp
    simp only [standardUtf8EncodeAll, List.flatMap_cons, List.length_append,
      List.length_cons] at ih ⊢
    omega

/-- On a buffer that holds, from `offset` on, the standard encodings of
the code points `cps` (each in [1, 0xFFFF]) and then a zero byte, the loop
prints one sequence per code point, in order, and leaves by `break`. On the
first iteration this needs `cps` to be non-empty. -/
theorem emitLoop_encoded (w : WinKeyData) (type : Int) (c : Nat) (buf rest : List Nat) :
    ∀ (cps : List Nat) (fuel offset : Nat) (first : Bool),
      (first = true → cps ≠ []) →
      (∀ p ∈ cps, 1 ≤ p ∧ p ≤ 0xFFFF) →
      buf.drop offset = standardUtf8EncodeAll cps ++ 0 :: rest →
      cps.length + 1 ≤ fuel →
      emitLoop w type c buf fuel offset first =
        (cps.map (escSequence w type c), LoopExit.brk) := by
  intro cps
  induction cps with
  | nil =>
    intro fuel offset first hfirst _ hd hf
    obtain ⟨f, rfl⟩ : ∃ f, fuel = f + 1 := ⟨fuel - 1, by omega⟩
    have hff : first = false := by
      cases first with
      | false => rfl
      | true => exact absurd rfl (hfirst rfl)
    subst hff
    have hdec : utf8_char_to_ucs2 (List.drop offset buf) = some (0, 0) := by
      rw [hd]
      simp [standardUtf8EncodeAll, utf8_char_to_ucs2]
    simp [emitLoop, hdec]
  | cons p ps ih =>
    intro fuel offset first _ hr hd hf
    obtain ⟨f, rfl⟩ : ∃ f, fuel = f + 1 := ⟨fuel - 1, by omega⟩
    have hp := hr p (List.mem_cons_self p ps)
    have hsplit : standardUtf8EncodeAll (p :: ps) ++ 0 :: rest =
        standardUtf8Encode p ++ (standardUtf8EncodeAll ps ++ 0 :: rest) := by
      simp [standardUtf8EncodeAll]
    have hdec : utf8_char_to_ucs2 (List.drop offset buf) =
        some (p, (standardUtf8Encode p).length) := by
      rw [hd, hsplit]
      exact decode_standardUtf8Encode p _ hp.1 hp.2
    have hlen : (standardUtf8Encode p).length ≠ 0 := by
      unfold standardUtf8Encode
      split_ifs <;> simp
    have hnext : List.drop (offset + (standardUtf8Encode p).length) buf =
        standardUtf8EncodeAll ps ++ 0 :: rest := by
      rw [← List.drop_drop, hd, hsplit, List.drop_left]
    have hrec := ih f (offset + (standardUtf8Encode p).length) false
      (fun h => absurd h (by decide)) (fun q hq => hr q (List.mem_cons_of_mem p hq)) hnext
      (by simp only [List.length_cons] at hf; omega)
    unfold emitLoop
    simp only [hdec, hlen, ne_eq, not_false_eq_true, true_or, if_true, hrec, List.map_cons]


theorem nul_lead_bits (b : Nat)
    (h : (0x80 ≤ b ∧ b < 0xC0) ∨ (0xF0 ≤ b ∧ b < 0x100)) :
    b ≠ 0 ∧ b &&& 0x80 ≠ 0 ∧ b &&& 0xE0 ≠ 0xC0 ∧ b &&& 0xF0 ≠ 0xE0 := by
  rcases h with ⟨h1, h2⟩ | ⟨h1, h2⟩ <;> interval_cases b <;> decide

/-! ## C9 -/

/-- C9, as stated, fails on the empty list of code points: its encoding is
the empty payload, and the event still prints one sequence (with code point
0), not none. -/
theorem C9_counterexample :
    (handleEvent 0 ⟨XKB_KEY_A, KeyPress, 0⟩ (standardUtf8EncodeAll [] ++ [0])).2.1 =
      [⟨65, 108, 0, 1, 0, 1⟩] ∧
    (handleEvent 0 ⟨XKB_KEY_A, KeyPress, 0⟩ (standardUtf8EncodeAll [] ++ [0])).2.1.length ≠
      ([] : List Nat).length := by
  decide

/-- C9, amended: for every non-empty list `cps` of code points each in
[1, 0xFFFF] whose standard UTF-8 encoding, followed by a zero byte, is the
content of `buf`, the event prints exactly one sequence per code point, in
payload order, with that code point as Unicode char; all of them carry the
same key code, scan code, key-down flag and dwControlKeyState and the repeat
count 1, and the loop ends by `break`. For the empty list the event prints
exactly one sequence, with Unicode char 0. -/
theorem C9_one_record_per_code_point (s : Nat) (ev : KeyEvent) (cps rest : List Nat)
    (hne : cps ≠ []) (hr : ∀ p ∈ cps, 1 ≤ p ∧ p ≤ 0xFFFF) :
    handleEvent s ev (standardUtf8EncodeAll cps ++ 0 :: rest) =
      (updateCks s ev,
       cps.map (fun cp =>
         ({ VirtualKeyCode := (xkb_to_winkey (keysymToInt ev.sym)).vk
            VirtualScanCode := (xkb_to_winkey (keysymToInt ev.sym)).scan
            UnicodeChar := cp
            KeyDown := if ev.type = KeyPress then 1 else 0
            dwControlKeyState := eventControlKeyState s ev
            RepeatCount := 1 } : EscSequence)),
       LoopExit.brk) ∧
    handleEvent s ev (standardUtf8EncodeAll [] ++ 0 :: rest) =
      (updateCks s ev,
       [{ VirtualKeyCode := (xkb_to_winkey (keysymToInt ev.sym)).vk
          VirtualScanCode := (xkb_to_winkey (keysymToInt ev.sym)).scan
          UnicodeChar := 0
          KeyDown := if ev.type = KeyPress then 1 else 0
          dwControlKeyState := eventControlKeyState s ev
          RepeatCount := 1 }],
       LoopExit.brk) := by
  constructor
  · rw [handleEvent_eq]
    have hfuel : cps.length + 1 ≤ (standardUtf8EncodeAll cps ++ 0 :: rest).length + 2 := by
      have := length_le_standardUtf8EncodeAll cps
      simp only [List.length_append, List.length_cons]
      omega
    rw [emitLoop_encoded _ _ _ _ rest cps _ 0 true (fun _ => hne) hr (by simp) hfuel]
    rfl
  · rw [handleEvent_eq]
    have hd : utf8_char_to_ucs2 (List.drop 0 (standardUtf8EncodeAll [] ++ 0 :: rest)) =
        some (0, 0) := by
      simp [standardUtf8EncodeAll, utf8_char_to_ucs2]
    have hlen : (standardUtf8EncodeAll [] ++ 0 :: rest).length + 2 = rest.length + 1 + 2 := by
      simp [standardUtf8EncodeAll]
    rw [hlen, emitLoop_first_zero _ _ _ _ _ _ _ hd]
    rfl

/-- C9 (amended) at the payload "é€" (U+00E9, U+20AC) of a key-down of
`A` on a fresh tracker. -/
theorem C9_one_record_per_code_point_witness :
    handleEvent 0 ⟨XKB_KEY_A, KeyPress, 0⟩ (standardUtf8EncodeAll [0xE9, 0x20AC] ++ 0 :: []) =
      (0, [⟨65, 108, 0xE9, 1, 0, 1⟩, ⟨65, 108, 0x20AC, 1, 0, 1⟩], LoopExit.brk) :=
  (C9_one_record_per_code_point 0 ⟨XKB_KEY_A, KeyPress, 0⟩ [0xE9, 0x20AC] []
    (by decide) (by decide)).1

/-! ## C10 -/

/-- When the keysym of the event is one for which line 47 is defined, the
event runs as `handleEvent` describes. -/
theorem handleEvent_checked_of_ge (s : Nat) (ev : KeyEvent) (buf : List Nat)
    (h : -128 ≤ keysymToInt ev.sym) :
    handleEvent_checked s ev buf = some (handleEvent s ev buf) := by
  unfold handleEvent_checked
  simp only [xkb_to_winkey_checked_of_ge _ h]
  rfl

/-- When the keysym of the event is one for which the call of `isalpha` at
line 47 is outside its domain, the event prints nothing. -/
theorem handleEvent_checked_of_lt (s : Nat) (ev : KeyEvent) (buf : List Nat)
    (h : keysymToInt ev.sym < -128) :
    handleEvent_checked s ev buf = none := by
  unfold handleEvent_checked
  simp only [xkb_to_winkey_checked_of_lt _ h]

/-- C10, as stated for every key event, fails: the keysym 0x80000000
reaches `xkb_to_winkey` as the `int` -2147483648, the call of `isalpha` at
line 47 is outside its domain, and the event prints no sequence. -/
theorem C10_counterexample :
    keysymToInt (KeyEvent.mk 0x80000000 KeyPress 0).sym = -2147483648 ∧
    handleEvent_checked 0 ⟨0x80000000, KeyPress, 0⟩ [0x41, 0, 0] = none := by
  decide

/-- C10, amended: for every tracker state, every key event whose keysym has an `int`
value of at least -128 (the range in which line 47 is defined; every
keysym below 0x80000000, so every keysym value 0..0x1fffffff of xkbcommon,
lies in it) and every content of `buf` (an array of 64 bytes; 3 suffice),
the event gets through the translation of line 135, prints at least one
sequence and the loop ends without using up its fuel; when the decoder
returns (0, 0) on its first call the event prints exactly one sequence,
with Unicode char 0, and the loop ends by `break`; and the decoder does
return (0, 0) on its first call when the first byte is zero (empty
payload), a continuation byte 0x80-0xBF, or a byte 0xF0-0xFF (lead of a
four-byte or longer sequence). -/
theorem C10_at_least_one_record (s : Nat) (ev : KeyEvent) (buf : List Nat)
    (hbuf : 3 ≤ buf.length) (hsym : -128 ≤ keysymToInt ev.sym) :
    handleEvent_checked s ev buf = some (handleEvent s ev buf) ∧
    (handleEvent s ev buf).2.1 ≠ [] ∧
    (handleEvent s ev buf).2.2 ≠ LoopExit.fuel ∧
    (utf8_char_to_ucs2 buf = some (0, 0) →
      (handleEvent s ev buf).2 =
        ([{ VirtualKeyCode := (xkb_to_winkey (keysymToInt ev.sym)).vk
            VirtualScanCode := (xkb_to_winkey (keysymToInt ev.sym)).scan
            UnicodeChar := 0
            KeyDown := if ev.type = KeyPress then 1 else 0
            dwControlKeyState := eventControlKeyState s ev
            RepeatCount := 1 }], LoopExit.brk)) ∧
    (∀ b0 t, buf = b0 :: t →
      (b0 = 0 ∨ (0x80 ≤ b0 ∧ b0 < 0xC0) ∨ (0xF0 ≤ b0 ∧ b0 < 0x100)) →
      utf8_char_to_ucs2 buf = some (0, 0)) := by
  refine ⟨handleEvent_checked_of_ge s ev buf hsym, ?_, ?_, ?_, ?_⟩
  · obtain ⟨ch, n, hd⟩ := utf8_char_to_ucs2_isSome buf hbuf
    rw [handleEvent_eq]
    simp only []
    unfold emitLoop
    simp [hd]
  · rw [handleEvent_eq]
    exact emitLoop_fuel _ _ _ _ _ _ _ (by simp)
  · intro hd
    rw [handleEvent_eq]
    simp only []
    rw [emitLoop_first_zero _ _ _ _ _ _ _ (by simpa using hd)]
    rfl
  · rintro b0 t rfl hb
    rcases hb with rfl | hb
    · simp [utf8_char_to_ucs2]
    · obtain ⟨n1, n2, n3, n4⟩ := nul_lead_bits b0 hb
      simp only [utf8_char_to_ucs2, n1, n2, n3, n4, if_false]

/-- C10 (amended) at a buffer that starts with the lead byte 0xF0 of a four-byte
sequence: the event gets through line 135 and prints one sequence, with
Unicode char 0. -/
theorem C10_at_least_one_record_witness :
    3 ≤ [0xF0, 0x9F, 0x98, 0x80, 0].length ∧
    -128 ≤ keysymToInt (KeyEvent.mk XKB_KEY_A KeyPress 0).sym ∧
    handleEvent_checked 0 ⟨XKB_KEY_A, KeyPress, 0⟩ [0xF0, 0x9F, 0x98, 0x80, 0] =
      some (handleEvent 0 ⟨XKB_KEY_A, KeyPress, 0⟩ [0xF0, 0x9F, 0x98, 0x80, 0]) ∧
    (handleEvent 0 ⟨XKB_KEY_A, KeyPress, 0⟩ [0xF0, 0x9F, 0x98, 0x80, 0]).2 =
      ([⟨65, 108, 0, 1, 0, 1⟩], LoopExit.brk) :=
  ⟨by decide, by decide,
   (C10_at_least_one_record 0 ⟨XKB_KEY_A, KeyPress, 0⟩ [0xF0, 0x9F, 0x98, 0x80, 0]
      (by decide) (by decide)).1,
   (C10_at_least_one_record 0 ⟨XKB_KEY_A, KeyPress, 0⟩ [0xF0, 0x9F, 0x98, 0x80, 0]
      (by decide) (by decide)).2.2.2.1 (by decide)⟩


/-! ## Lemmas on the signed reading of the bytes -/

theorem signedChar_of_ge (b : Nat) (h1 : 128 ≤ b) (h2 : b < 256) :
    signedChar b = Int.negSucc (255 - b) := by
  unfold signedChar
  rw [if_neg (by omega), Int.negSucc_eq]
  omega

theorem ldiff_255_sub (b m : Nat) (hb : b < 256) (hm : m < 256) :
    Nat.ldiff m (255 - b) = b &&& m := by
  apply Nat.eq_of_testBit_eq
  intro i
  have h255 : 255 - b = 2 ^ 8 - (b + 1) := by omega
  rw [Nat.testBit_ldiff, h255, Nat.testBit_two_pow_sub_succ (by omega), Nat.testBit_and]
  by_cases hi : i < 8
  · simp [hi, Bool.and_comm]
  · have hpow : 2 ^ 8 ≤ 2 ^ i := Nat.pow_le_pow_right (by decide) (Nat.le_of_not_lt hi)
    have hmi : m.testBit i = false := Nat.testBit_lt_two_pow (by omega)
    simp [hmi]

theorem land_signedChar (b m : Nat) (hb : b < 256) (hm : m < 256) :
    Int.land (signedChar b) (m : Int) = ((b &&& m : Nat) : Int) := by
  by_cases h : b < 128
  · unfold signedChar
    rw [if_pos h]
    rfl
  · rw [signedChar_of_ge b (by omega) hb]
    show ((Nat.ldiff m (255 - b) : Nat) : Int) = _
    rw [ldiff_255_sub b m hb hm]


theorem signedChar_eq_zero (b : Nat) (hb : b < 256) : signedChar b = 0 ↔ b = 0 := by
  unfold signedChar
  split_ifs <;> omega

theorem signedChar_of_bit7_clear (b : Nat) (hb : b < 256) (h : b &&& 0x80 = 0) :
    signedChar b = (b : Int) := by
  have hlt : b < 128 := by
    by_contra hge
    have h7 : (b &&& 0x80).testBit 7 = true := by
      have hdiv : b / 2 ^ 7 % 2 = 1 := by omega
      rw [Nat.testBit_and, Nat.testBit_to_div_mod, hdiv]
      decide
    rw [h] at h7
    simp at h7
  unfold signedChar
  rw [if_pos hlt]

/-- The masks of the decoder give on a signed `char` what they give on its
bit pattern. -/
theorem land_signedChar_masks (b : Nat) (hb : b < 256) :
    Int.land (signedChar b) 0x80 = ((b &&& 0x80 : Nat) : Int) ∧
    Int.land (signedChar b) 0xE0 = ((b &&& 0xE0 : Nat) : Int) ∧
    Int.land (signedChar b) 0xF0 = ((b &&& 0xF0 : Nat) : Int) ∧
    Int.land (signedChar b) 0x1F = ((b &&& 0x1F : Nat) : Int) ∧
    Int.land (signedChar b) 0x0F = ((b &&& 0x0F : Nat) : Int) ∧
    Int.land (signedChar b) 0x3F = ((b &&& 0x3F : Nat) : Int) :=
  ⟨land_signedChar b 0x80 hb (by decide), land_signedChar b 0xE0 hb (by decide),
   land_signedChar b 0xF0 hb (by decide), land_signedChar b 0x1F hb (by decide),
   land_signedChar b 0x0F hb (by decide), land_signedChar b 0x3F hb (by decide)⟩

theorem cast_eq_lead (x : Nat) :
    (((x : Int) = 0) ↔ x = 0) ∧ (((x : Int) = 0xC0) ↔ x = 0xC0) ∧
      (((x : Int) = 0xE0) ↔ x = 0xE0) := by
  refine ⟨?_, ?_, ?_⟩ <;> constructor <;> intro h <;> omega

theorem lor_shift_cast2 (x y : Nat) :
    Int.lor ((x : Int) <<< (6 : Int)) (y : Int) = (((x <<< 6) ||| y : Nat) : Int) := by
  rw [show (6 : Int) = ((6 : Nat) : Int) from rfl, Int.shiftLeft_coe_nat]
  rfl

theorem lor_shift_cast3 (x y z : Nat) :
    Int.lor (Int.lor ((x : Int) <<< (12 : Int)) ((y : Int) <<< (6 : Int))) (z : Int) =
      (((x <<< 12) ||| (y <<< 6) ||| z : Nat) : Int) := by
  rw [show (6 : Int) = ((6 : Nat) : Int) from rfl, show (12 : Int) = ((12 : Nat) : Int) from rfl,
    Int.shiftLeft_coe_nat, Int.shiftLeft_coe_nat]
  rfl

/-- Reading the bytes as signed `char` changes nothing: on every buffer of
bytes the signed decoder returns what the decoder on bit patterns returns. -/
theorem utf8_char_to_ucs2_schar_eq (l : List Nat) (hl : ∀ x ∈ l, x < 256) :
    utf8_char_to_ucs2_schar (l.map signedChar) =
      (utf8_char_to_ucs2 l).map (fun r => ((r.1 : Int), r.2)) := by
  match l, hl with
  | [], _ => rfl
  | [b0], h =>
    have h0 : b0 < 256 := h b0 (by simp)
    obtain ⟨m1, m2, m3, -, -, -⟩ := land_signedChar_masks b0 h0
    simp only [List.map, utf8_char_to_ucs2_schar, utf8_char_to_ucs2, m1, m2, m3,
      signedChar_eq_zero b0 h0, (cast_eq_lead _).1, (cast_eq_lead _).2.1,
      (cast_eq_lead _).2.2]
    split_ifs with c1 c2 c3 c4
    · rfl
    · simp [signedChar_of_bit7_clear b0 h0 c2]
    all_goals rfl
  | [b0, b1], h =>
    have h0 : b0 < 256 := h b0 (by simp)
    have h1 : b1 < 256 := h b1 (by simp)
    obtain ⟨m1, m2, m3, m4, -, -⟩ := land_signedChar_masks b0 h0
    obtain ⟨-, -, -, -, -, n6⟩ := land_signedChar_masks b1 h1
    simp only [List.map, utf8_char_to_ucs2_schar, utf8_char_to_ucs2, m1, m2, m3, m4, n6,
      signedChar_eq_zero b0 h0, (cast_eq_lead _).1, (cast_eq_lead _).2.1,
      (cast_eq_lead _).2.2, lor_shift_cast2]
    split_ifs with c1 c2 c3 c4
    · rfl
    · simp [signedChar_of_bit7_clear b0 h0 c2]
    all_goals rfl
  | b0 :: b1 :: b2 :: t, h =>
    have h0 : b0 < 256 := h b0 (by simp)
    have h1 : b1 < 256 := h b1 (by simp)
    have h2 : b2 < 256 := h b2 (by simp)
    obtain ⟨m1, m2, m3, m4, m5, -⟩ := land_signedChar_masks b0 h0
    obtain ⟨-, -, -, -, -, n6⟩ := land_signedChar_masks b1 h1
    obtain ⟨-, -, -, -, -, k6⟩ := land_signedChar_masks b2 h2
    simp only [List.map, utf8_char_to_ucs2_schar, utf8_char_to_ucs2, m1, m2, m3, m4, m5, n6,
      k6, signedChar_eq_zero b0 h0, (cast_eq_lead _).1, (cast_eq_lead _).2.1,
      (cast_eq_lead _).2.2, lor_shift_cast2,
      lor_shift_cast3]
    split_ifs with c1 c2 c3 c4
    · rfl
    · simp [signedChar_of_bit7_clear b0 h0 c2]
    all_goals rfl

theorem lead2_range (a : Nat) (h : 0xC0 ≤ a ∧ a ≤ 0xDF) :
    a ≠ 0 ∧ a &&& 0x80 ≠ 0 ∧ a &&& 0xE0 = 0xC0 := by
  obtain ⟨h1, h2⟩ := h
  interval_cases a <;> decide

theorem lead3_range (b : Nat) (h : 0xE0 ≤ b ∧ b ≤ 0xEF) :
    b ≠ 0 ∧ b &&& 0x80 ≠ 0 ∧ b &&& 0xE0 ≠ 0xC0 ∧ b &&& 0xF0 = 0xE0 := by
  obtain ⟨h1, h2⟩ := h
  interval_cases b <;> decide

/-! ## C11 -/

/-- C11: for every lead byte `a` of the form 110xxxxx (0xC0..0xDF) and
every following byte `b1`, valid continuation or not, `utf8_char_to_ucs2`
stores `((a & 0x1F) << 6) | (b1 & 0x3F)` and returns 2; for every lead byte
`b` of the form 1110xxxx (0xE0..0xEF) and every `b1`, `b2` it stores
`((b & 0x0F) << 12) | ((b1 & 0x3F) << 6) | (b2 & 0x3F)` and returns 3; for
every non-zero byte `c` of the form 0xxxxxxx it stores `c` and returns 1. And
on every buffer `l` of bytes the function computed on signed `char` values
returns the same pair as on the bit patterns. -/
theorem C11_decoder_formulas (a b c b1 b2 : Nat) (rest l : List Nat)
    (ha : 0xC0 ≤ a ∧ a ≤ 0xDF) (hb : 0xE0 ≤ b ∧ b ≤ 0xEF) (hc : 1 ≤ c ∧ c ≤ 0x7F)
    (hl : ∀ x ∈ l, x < 256) :
    utf8_char_to_ucs2 (a :: b1 :: rest) = some (((a &&& 0x1F) <<< 6) ||| (b1 &&& 0x3F), 2) ∧
    utf8_char_to_ucs2 (b :: b1 :: b2 :: rest) =
      some (((b &&& 0x0F) <<< 12) ||| ((b1 &&& 0x3F) <<< 6) ||| (b2 &&& 0x3F), 3) ∧
    utf8_char_to_ucs2 (c :: rest) = some (c, 1) ∧
    utf8_char_to_ucs2_schar (l.map signedChar) =
      (utf8_char_to_ucs2 l).map (fun r => ((r.1 : Int), r.2)) := by
  obtain ⟨a1, a2, a3⟩ := lead2_range a ha
  obtain ⟨e1, e2, e3, e4⟩ := lead3_range b hb
  have c1 : c ≠ 0 := by omega
  have c2 : c &&& 0x80 = 0 := ascii_bit7 c (by omega)
  refine ⟨?_, ?_, ?_, utf8_char_to_ucs2_schar_eq l hl⟩
  · simp only [utf8_char_to_ucs2, a1, a2, a3, if_false, if_true]
  · simp only [utf8_char_to_ucs2, e1, e2, e3, e4, if_false, if_true]
  · simp only [utf8_char_to_ucs2, c1, c2, if_false, if_true]

/-- C11 at the lead bytes 0xC3, 0xE2 and 0x41, each followed by bytes that
are no continuation bytes, and at the buffer C3 A9 read as the signed chars
-61, -87. -/
theorem C11_decoder_formulas_witness :
    utf8_char_to_ucs2 [0xC3, 0x41, 0x00] = some (0xC1, 2) ∧
    utf8_char_to_ucs2 [0xE2, 0x41, 0x00] = some (0x2040, 3) ∧
    utf8_char_to_ucs2 [0x41] = some (0x41, 1) ∧
    utf8_char_to_ucs2_schar [-61, -87] = some (0xE9, 2) := by
  have h := C11_decoder_formulas 0xC3 0xE2 0x41 0x41 0x00 [] [0xC3, 0xA9]
    (by decide) (by decide) (by decide) (by decide)
  exact ⟨h.1, h.2.1, h.2.2.1, h.2.2.2⟩

/-! ## C12 -/

/-- C12: `utf8_char_to_ucs2` stores 0 and returns 0 whenever the first
byte is zero, and whenever the first byte `b0` is the lead of a four-byte
sequence (11110xxx, 0xF0..0xF7), whatever bytes `rest` follow (none
included). -/
theorem C12_decoder_zero_results (b0 : Nat) (rest : List Nat)
    (h : 0xF0 ≤ b0 ∧ b0 ≤ 0xF7) :
    utf8_char_to_ucs2 (0 :: rest) = some (0, 0) ∧
    utf8_char_to_ucs2 (b0 :: rest) = some (0, 0) := by
  obtain ⟨n1, n2, n3, n4⟩ := nul_lead_bits b0 (Or.inr ⟨h.1, by omega⟩)
  constructor
  · simp only [utf8_char_to_ucs2, if_true]
  · simp only [utf8_char_to_ucs2, n1, n2, n3, n4, if_false]

/-- C12 at the encoding F0 9F 98 80 of U+1F600. -/
theorem C12_decoder_zero_results_witness :
    utf8_char_to_ucs2 (0 :: [0x9F, 0x98, 0x80, 0]) = some (0, 0) ∧
    utf8_char_to_ucs2 (0xF0 :: [0x9F, 0x98, 0x80, 0]) = some (0, 0) :=
  C12_decoder_zero_results 0xF0 [0x9F, 0x98, 0x80, 0] (by decide)

/-! ## C13 -/

/-- C13: for each navigation key N of Home, End, Page_Up, Page_Down, Left,
Up, Right, Down, Insert, Delete, `xkb_to_winkey` returns the same
virtual-key code for N and for KP_N, the third byte 1 for N and the third
byte 0 for KP_N. -/
theorem C13_navigation_keys_and_keypad_twins :
    ((xkb_to_winkey XKB_KEY_Home).vk = (xkb_to_winkey XKB_KEY_KP_Home).vk ∧
      (xkb_to_winkey XKB_KEY_Home).enhanced = 1 ∧ (xkb_to_winkey XKB_KEY_KP_Home).enhanced = 0) ∧
    ((xkb_to_winkey XKB_KEY_End).vk = (xkb_to_winkey XKB_KEY_KP_End).vk ∧
      (xkb_to_winkey XKB_KEY_End).enhanced = 1 ∧ (xkb_to_winkey XKB_KEY_KP_End).enhanced = 0) ∧
    ((xkb_to_winkey XKB_KEY_Page_Up).vk = (xkb_to_winkey XKB_KEY_KP_Page_Up).vk ∧
      (xkb_to_winkey XKB_KEY_Page_Up).enhanced = 1 ∧ (xkb_to_winkey XKB_KEY_KP_Page_Up).enhanced = 0) ∧
    ((xkb_to_winkey XKB_KEY_Page_Down).vk = (xkb_to_winkey XKB_KEY_KP_Page_Down).vk ∧
      (xkb_to_winkey XKB_KEY_Page_Down).enhanced = 1 ∧ (xkb_to_winkey XKB_KEY_KP_Page_Down).enhanced = 0) ∧
    ((xkb_to_winkey XKB_KEY_Left).vk = (xkb_to_winkey XKB_KEY_KP_Left).vk ∧
      (xkb_to_winkey XKB_KEY_Left).enhanced = 1 ∧ (xkb_to_winkey XKB_KEY_KP_Left).enhanced = 0) ∧
    ((xkb_to_winkey XKB_KEY_Up).vk = (xkb_to_winkey XKB_KEY_KP_Up).vk ∧
      (xkb_to_winkey XKB_KEY_Up).enhanced = 1 ∧ (xkb_to_winkey XKB_KEY_KP_Up).enhanced = 0) ∧
    ((xkb_to_winkey XKB_KEY_Right).vk = (xkb_to_winkey XKB_KEY_KP_Right).vk ∧
      (xkb_to_winkey XKB_KEY_Right).enhanced = 1 ∧ (xkb_to_winkey XKB_KEY_KP_Right).enhanced = 0) ∧
    ((xkb_to_winkey XKB_KEY_Down).vk = (xkb_to_winkey XKB_KEY_KP_Down).vk ∧
      (xkb_to_winkey XKB_KEY_Down).enhanced = 1 ∧ (xkb_to_winkey XKB_KEY_KP_Down).enhanced = 0) ∧
    ((xkb_to_winkey XKB_KEY_Insert).vk = (xkb_to_winkey XKB_KEY_KP_Insert).vk ∧
      (xkb_to_winkey XKB_KEY_Insert).enhanced = 1 ∧ (xkb_to_winkey XKB_KEY_KP_Insert).enhanced = 0) ∧
    ((xkb_to_winkey XKB_KEY_Delete).vk = (xkb_to_winkey XKB_KEY_KP_Delete).vk ∧
      (xkb_to_winkey XKB_KEY_Delete).enhanced = 1 ∧ (xkb_to_winkey XKB_KEY_KP_Delete).enhanced = 0) := by
  decide

/-! ## C14 -/

/-- C14: for every ASCII letter, given by its upper-case keysym `c` in
`A..Z`, `xkb_to_winkey` returns for `c` and for the lower-case keysym
`c + 0x20` a virtual-key code equal to `c` (65..90) and the third byte 0; for
every digit keysym `d` in `0..9` it returns the virtual-key code `d` (48..57)
and the third byte 0; for every keysym `f` of F1..F12 it returns the
virtual-key code `112 + (f - F1)` and the third byte 0; and the arrays
returned for the letters (either case), the digits and F1..F12 are the
literal rows of lines 86-121 and 140-151 (`A` gives 65, 108, 0). -/
theorem C14_golden_table_values (c d f : Int)
    (hc : 0x41 ≤ c ∧ c ≤ 0x5a) (hd : 0x30 ≤ d ∧ d ≤ 0x39)
    (hf : XKB_KEY_F1 ≤ f ∧ f ≤ XKB_KEY_F12) :
    (((xkb_to_winkey c).vk : Int) = c ∧ (xkb_to_winkey c).enhanced = 0 ∧
      xkb_to_winkey (c + 0x20) = xkb_to_winkey c) ∧
    (((xkb_to_winkey d).vk : Int) = d ∧ (xkb_to_winkey d).enhanced = 0) ∧
    (((xkb_to_winkey f).vk : Int) = 112 + (f - XKB_KEY_F1) ∧
      (xkb_to_winkey f).enhanced = 0) ∧
    [XKB_KEY_A, XKB_KEY_B, XKB_KEY_C, XKB_KEY_D, XKB_KEY_E, XKB_KEY_F, XKB_KEY_G, XKB_KEY_H,
      XKB_KEY_I, XKB_KEY_J, XKB_KEY_K, XKB_KEY_L, XKB_KEY_M, XKB_KEY_N, XKB_KEY_O, XKB_KEY_P,
      XKB_KEY_Q, XKB_KEY_R, XKB_KEY_S, XKB_KEY_T, XKB_KEY_U, XKB_KEY_V, XKB_KEY_W, XKB_KEY_X,
      XKB_KEY_Y, XKB_KEY_Z].map xkb_to_winkey =
      [WinKeyData.mk 65 108 0, WinKeyData.mk 66 124 0, WinKeyData.mk 67 122 0,
        WinKeyData.mk 68 110 0, WinKeyData.mk 69 98 0, WinKeyData.mk 70 111 0,
        WinKeyData.mk 71 112 0, WinKeyData.mk 72 113 0, WinKeyData.mk 73 103 0,
        WinKeyData.mk 74 114 0, WinKeyData.mk 75 115 0, WinKeyData.mk 76 116 0,
        WinKeyData.mk 77 126 0, WinKeyData.mk 78 125 0, WinKeyData.mk 79 104 0,
        WinKeyData.mk 80 105 0, WinKeyData.mk 81 96 0, WinKeyData.mk 82 99 0,
        WinKeyData.mk 83 109 0, WinKeyData.mk 84 100 0, WinKeyData.mk 85 102 0,
        WinKeyData.mk 86 123 0, WinKeyData.mk 87 97 0, WinKeyData.mk 88 121 0,
        WinKeyData.mk 89 101 0, WinKeyData.mk 90 120 0] ∧
    [XKB_KEY_A, XKB_KEY_B, XKB_KEY_C, XKB_KEY_D, XKB_KEY_E, XKB_KEY_F, XKB_KEY_G, XKB_KEY_H,
      XKB_KEY_I, XKB_KEY_J, XKB_KEY_K, XKB_KEY_L, XKB_KEY_M, XKB_KEY_N, XKB_KEY_O, XKB_KEY_P,
      XKB_KEY_Q, XKB_KEY_R, XKB_KEY_S, XKB_KEY_T, XKB_KEY_U, XKB_KEY_V, XKB_KEY_W, XKB_KEY_X,
      XKB_KEY_Y, XKB_KEY_Z].map (fun k => xkb_to_winkey (k + 0x20)) =
      [WinKeyData.mk 65 108 0, WinKeyData.mk 66 124 0, WinKeyData.mk 67 122 0,
        WinKeyData.mk 68 110 0, WinKeyData.mk 69 98 0, WinKeyData.mk 70 111 0,
        WinKeyData.mk 71 112 0, WinKeyData.mk 72 113 0, WinKeyData.mk 73 103 0,
        WinKeyData.mk 74 114 0, WinKeyData.mk 75 115 0, WinKeyData.mk 76 116 0,
        WinKeyData.mk 77 126 0, WinKeyData.mk 78 125 0, WinKeyData.mk 79 104 0,
        WinKeyData.mk 80 105 0, WinKeyData.mk 81 96 0, WinKeyData.mk 82 99 0,
        WinKeyData.mk 83 109 0, WinKeyData.mk 84 100 0, WinKeyData.mk 85 102 0,
        WinKeyData.mk 86 123 0, WinKeyData.mk 87 97 0, WinKeyData.mk 88 121 0,
        WinKeyData.mk 89 101 0, WinKeyData.mk 90 120 0] ∧
    [XKB_KEY_0, XKB_KEY_1, XKB_KEY_2, XKB_KEY_3, XKB_KEY_4, XKB_KEY_5, XKB_KEY_6, XKB_KEY_7,
      XKB_KEY_8, XKB_KEY_9].map xkb_to_winkey =
      [WinKeyData.mk 48 11 0, WinKeyData.mk 49 2 0, WinKeyData.mk 50 3 0,
        WinKeyData.mk 51 4 0, WinKeyData.mk 52 5 0, WinKeyData.mk 53 6 0, WinKeyData.mk 54 7 0,
        WinKeyData.mk 55 8 0, WinKeyData.mk 56 9 0, WinKeyData.mk 57 10 0] ∧
    [XKB_KEY_F1, XKB_KEY_F2, XKB_KEY_F3, XKB_KEY_F4, XKB_KEY_F5, XKB_KEY_F6, XKB_KEY_F7,
      XKB_KEY_F8, XKB_KEY_F9, XKB_KEY_F10, XKB_KEY_F11, XKB_KEY_F12].map xkb_to_winkey =
      [WinKeyData.mk 112 59 0, WinKeyData.mk 113 60 0, WinKeyData.mk 114 61 0,
        WinKeyData.mk 115 62 0, WinKeyData.mk 116 63 0, WinKeyData.mk 117 64 0,
        WinKeyData.mk 118 65 0, WinKeyData.mk 119 66 0, WinKeyData.mk 120 67 0,
        WinKeyData.mk 121 68 0, WinKeyData.mk 122 87 0, WinKeyData.mk 123 88 0] := by
  obtain ⟨c1, c2⟩ := hc
  obtain ⟨d1, d2⟩ := hd
  obtain ⟨f1, f2⟩ := hf
  have g1 : 0xffbe ≤ f := f1
  have g2 : f ≤ 0xffc9 := f2
  refine ⟨?_, ?_, ?_, by decide, by decide, by decide, by decide⟩
  · interval_cases c <;> decide
  · interval_cases d <;> decide
  · interval_cases f <;> decide

/-- C14 at the letter `Q`, the digit `7` and the key F5. -/
theorem C14_golden_table_values_witness :
    ((xkb_to_winkey 0x51).vk : Int) = 0x51 ∧
    xkb_to_winkey (0x51 + 0x20) = xkb_to_winkey 0x51 ∧
    ((xkb_to_winkey 0x37).vk : Int) = 0x37 ∧
    ((xkb_to_winkey XKB_KEY_F5).vk : Int) = 112 + (XKB_KEY_F5 - XKB_KEY_F1) := by
  have h := C14_golden_table_values 0x51 0x37 XKB_KEY_F5 (by decide) (by decide) (by decide)
  exact ⟨h.1.1, h.1.2.2, h.2.1.1, h.2.2.1.1⟩

/-! ## C15 -/

/-- C15: for every tracker state and key event, when `buf` holds the two
bytes C3 A9 (U+00E9) followed by the terminator, the event prints exactly one
sequence, its Unicode char is 0xE9, and the loop ends by `break`. -/
theorem C15_e_acute_payload (s : Nat) (ev : KeyEvent) (rest : List Nat) :
    handleEvent s ev (0xC3 :: 0xA9 :: 0 :: rest) =
      (updateCks s ev,
       [{ VirtualKeyCode := (xkb_to_winkey (keysymToInt ev.sym)).vk
          VirtualScanCode := (xkb_to_winkey (keysymToInt ev.sym)).scan
          UnicodeChar := 0xE9
          KeyDown := if ev.type = KeyPress then 1 else 0
          dwControlKeyState := eventControlKeyState s ev
          RepeatCount := 1 }],
       LoopExit.brk) := by
  have henc : standardUtf8EncodeAll [0xE9] = [0xC3, 0xA9] := by decide
  have hd : List.drop 0 (0xC3 :: 0xA9 :: 0 :: rest) =
      standardUtf8EncodeAll [0xE9] ++ 0 :: rest := by
    rw [henc]
    rfl
  rw [handleEvent_eq,
    emitLoop_encoded _ _ _ _ rest [0xE9] _ 0 true (fun _ => by simp) (by decide) hd
      (by simp)]
  rfl

/-! ## C16 -/

/-- C16: for a KP_Enter key-down event, from every tracker state `s` and
with every mask `m`, `xkb_to_winkey` returns the array 13, 28, 1, the
dwControlKeyState of the event has bit 8 (ENHANCED_KEY) set, and every
sequence `r` printed for the event carries the key code 13, the scan code 28
and a dwControlKeyState with bit 8 set. -/
theorem C16_keypad_enter_enhanced (s m : Nat) (buf : List Nat) (r : EscSequence)
    (hr : r ∈ (handleEvent s ⟨XKB_KEY_KP_Enter, KeyPress, m⟩ buf).2.1) :
    xkb_to_winkey (keysymToInt XKB_KEY_KP_Enter) = WinKeyData.mk 13 28 1 ∧
    (eventControlKeyState s ⟨XKB_KEY_KP_Enter, KeyPress, m⟩).testBit 8 = true ∧
    r.VirtualKeyCode = 13 ∧ r.VirtualScanCode = 28 ∧ r.KeyDown = 1 ∧
    r.dwControlKeyState.testBit 8 = true ∧
    r.dwControlKeyState &&& ENHANCED_KEY = ENHANCED_KEY := by
  have hw : xkb_to_winkey (keysymToInt XKB_KEY_KP_Enter) = WinKeyData.mk 13 28 1 := by decide
  have h8 : (eventControlKeyState s ⟨XKB_KEY_KP_Enter, KeyPress, m⟩).testBit 8 = true := by
    unfold eventControlKeyState
    rw [testBit_cks_current]
    simp [hw]
  rw [handleEvent_eq] at hr
  obtain ⟨f1, f2, f3, f4, -⟩ := emitLoop_fields _ _ _ _ _ _ _ r hr
  simp only [hw] at f1 f2
  refine ⟨hw, h8, f1, f2, ?_, ?_, ?_⟩
  · rw [f3]
    rfl
  · rw [f4]
    exact h8
  · rw [f4]
    apply Nat.eq_of_testBit_eq
    intro i
    rw [Nat.testBit_and, testBit_ENHANCED_KEY]
    by_cases hi : 8 = i
    · subst hi
      simp [h8]
    · simp [hi]

/-- C16 at the state 0, the mask 0 and the payload of one carriage
return. -/
theorem C16_keypad_enter_enhanced_witness :
    (⟨13, 28, 13, 1, 0x100, 1⟩ : EscSequence) ∈
      (handleEvent 0 ⟨XKB_KEY_KP_Enter, KeyPress, 0⟩ [13, 0]).2.1 ∧
    (0x100 : Nat).testBit 8 = true := by
  have hm : (⟨13, 28, 13, 1, 0x100, 1⟩ : EscSequence) ∈
      (handleEvent 0 ⟨XKB_KEY_KP_Enter, KeyPress, 0⟩ [13, 0]).2.1 := by decide
  exact ⟨hm, (C16_keypad_enter_enhanced 0 0 [13, 0] ⟨13, 28, 13, 1, 0x100, 1⟩ hm).2.2.2.2.2.1⟩

/-! ## C17 -/

theorem trackedOnly_iff_and_mask (s : Nat) : TrackedOnly s ↔ s &&& 0x61F = s := by
  constructor
  · intro h
    apply Nat.eq_of_testBit_eq
    intro i
    rw [Nat.testBit_and]
    cases hs : s.testBit i with
    | false => rfl
    | true =>
      rcases h i hs with h | h | h | h | h | h | h <;> subst h <;> decide
  · intro h i hi
    rw [← h, Nat.testBit_and, Bool.and_eq_true] at hi
    have h11 : i < 11 := by
      by_contra hge
      have hpow : 2 ^ 11 ≤ 2 ^ i := Nat.pow_le_pow_right (by decide) (Nat.le_of_not_lt hge)
      have : (0x61F : Nat).testBit i = false := Nat.testBit_lt_two_pow (by omega)
      rw [this] at hi
      exact absurd hi.2 (by decide)
    have h2 := hi.2
    interval_cases i <;> first | omega | (exact absurd h2 (by decide))

/-- C17: from the initial state 0, after every sequence `evs` of events
the tracked state has bits only in the mask 0x061F (bits 0-4, 9, 10); its bits
5, 6, 7 (lock keys) and 8 (enhanced key) are clear; and the value that one
more event `ev` leaves in `cks` for the next event is the tracked state after
`evs` followed by `ev`, not the dwControlKeyState printed for `ev`. -/
theorem C17_tracked_state_invariant (evs : List KeyEvent) (ev : KeyEvent) (buf : List Nat) :
    cksAfter evs &&& 0x61F = cksAfter evs ∧
    (cksAfter evs).testBit 5 = false ∧ (cksAfter evs).testBit 6 = false ∧
    (cksAfter evs).testBit 7 = false ∧ (cksAfter evs).testBit 8 = false ∧
    (handleEvent (cksAfter evs) ev buf).1 = cksAfter (evs ++ [ev]) ∧
    (handleEvent (cksAfter evs) ev buf).1 &&& 0x61F = (handleEvent (cksAfter evs) ev buf).1 := by
  have ht := trackedOnly_cksAfter evs
  have hb : ∀ i, i ≠ 0 → i ≠ 1 → i ≠ 2 → i ≠ 3 → i ≠ 4 → i ≠ 9 → i ≠ 10 →
      (cksAfter evs).testBit i = false := by
    intro i i0 i1 i2 i3 i4 i9 i10
    cases hv : (cksAfter evs).testBit i with
    | false => rfl
    | true => rcases ht i hv with h | h | h | h | h | h | h <;> omega
  have hnext : (handleEvent (cksAfter evs) ev buf).1 = cksAfter (evs ++ [ev]) := by
    rw [handleEvent_eq]
    simp [cksAfter, List.foldl_append]
  refine ⟨(trackedOnly_iff_and_mask _).1 ht,
    hb 5 (by decide) (by decide) (by decide) (by decide) (by decide) (by decide) (by decide),
    hb 6 (by decide) (by decide) (by decide) (by decide) (by decide) (by decide) (by decide),
    hb 7 (by decide) (by decide) (by decide) (by decide) (by decide) (by decide) (by decide),
    hb 8 (by decide) (by decide) (by decide) (by decide) (by decide) (by decide) (by decide),
    hnext, ?_⟩
  rw [hnext]
  exact (trackedOnly_iff_and_mask _).1 (trackedOnly_cksAfter _)

/-! ## C18 -/

/-- Half of the aggregate-shift consistency holds in every reachable
state: bit 4 is set only together with bit 9 or bit 10. -/
theorem shift_side_of_aggregate (evs : List KeyEvent) :
    (cksAfter evs).testBit 4 = true →
      (cksAfter evs).testBit 9 = true ∨ (cksAfter evs).testBit 10 = true := by
  have key : ∀ (l : List KeyEvent) (s : Nat),
      (s.testBit 4 = true → s.testBit 9 = true ∨ s.testBit 10 = true) →
      ((l.foldl updateCks s).testBit 4 = true →
        (l.foldl updateCks s).testBit 9 = true ∨ (l.foldl updateCks s).testBit 10 = true) := by
    intro l
    induction l with
    | nil => exact fun s hs => hs
    | cons ev l ih =>
      intro s hs
      apply ih
      have hrec : (reconcile s ev.state).testBit 4 = true →
          (reconcile s ev.state).testBit 9 = true ∨
            (reconcile s ev.state).testBit 10 = true := by
        rw [testBit_reconcile_shift _ _ _ (Or.inl rfl),
          testBit_reconcile_shift _ _ _ (Or.inr (Or.inl rfl)),
          testBit_reconcile_shift _ _ _ (Or.inr (Or.inr rfl))]
        split_ifs
        · intro h
          exact absurd h (by decide)
        · exact hs
      unfold updateCks
      rcases edgeTransition_cases (reconcile s ev.state) ev.sym ev.type with h | ⟨-, -, h⟩ |
        ⟨-, -, h⟩ | ⟨-, h | h | h | h⟩ | ⟨-, h | h | h | h | h | h⟩ <;> rw [h] <;>
        first
          | exact hrec
          | (simp [-Nat.testBit_zero] <;> tauto)
  exact key evs 0 (fun h => by simp at h)

/-- C18, as stated, fails in the direction from the side bits to bit 4:
after Shift_L down, Shift_R down, Shift_L up (the masks as X11 reports them,
the state before each event) the tracked state is 0x400: bit 10 (right
Shift) is set and bit 4 (any-Shift) is clear, as lines 102 and 104 clear
bit 4 on the release of either Shift key; a following press of `A` prints
the dwControlKeyState 0x400. -/
theorem C18_counterexample :
    cksAfter [⟨XKB_KEY_Shift_L, KeyPress, 0⟩, ⟨XKB_KEY_Shift_R, KeyPress, ShiftMask⟩,
      ⟨XKB_KEY_Shift_L, KeyRelease, ShiftMask⟩] = 0x400 ∧
    (0x400 : Nat).testBit 10 = true ∧ (0x400 : Nat).testBit 9 = false ∧
    (0x400 : Nat).testBit 4 = false ∧
    handleEvent (cksAfter [⟨XKB_KEY_Shift_L, KeyPress, 0⟩,
        ⟨XKB_KEY_Shift_R, KeyPress, ShiftMask⟩, ⟨XKB_KEY_Shift_L, KeyRelease, ShiftMask⟩])
      ⟨XKB_KEY_A, KeyPress, ShiftMask⟩ [0x41, 0] =
      (0x400, [⟨65, 108, 0x41, 1, 0x400, 1⟩], LoopExit.brk) := by
  decide

/-- C18, amended: in every tracker state reachable from the initial
all-clear state by any sequence of events, if bit 4 (any-Shift) is set then
bit 9 (left Shift) or bit 10 (right Shift) is set. -/
theorem C18_aggregate_shift_has_side (evs : List KeyEvent)
    (h : (cksAfter evs).testBit 4 = true) :
    (cksAfter evs).testBit 9 = true ∨ (cksAfter evs).testBit 10 = true :=
  shift_side_of_aggregate evs h

/-- C18 (amended) after Shift_L down, Shift_R down: the state is 0x610, with
bit 4 and both side bits set. -/
theorem C18_aggregate_shift_has_side_witness :
    cksAfter [⟨XKB_KEY_Shift_L, KeyPress, 0⟩, ⟨XKB_KEY_Shift_R, KeyPress, ShiftMask⟩] = 0x610 ∧
    (cksAfter [⟨XKB_KEY_Shift_L, KeyPress, 0⟩,
      ⟨XKB_KEY_Shift_R, KeyPress, ShiftMask⟩]).testBit 4 = true ∧
    ((cksAfter [⟨XKB_KEY_Shift_L, KeyPress, 0⟩,
        ⟨XKB_KEY_Shift_R, KeyPress, ShiftMask⟩]).testBit 9 = true ∨
      (cksAfter [⟨XKB_KEY_Shift_L, KeyPress, 0⟩,
        ⟨XKB_KEY_Shift_R, KeyPress, ShiftMask⟩]).testBit 10 = true) :=
  ⟨by decide, by decide,
   C18_aggregate_shift_has_side
     [⟨XKB_KEY_Shift_L, KeyPress, 0⟩, ⟨XKB_KEY_Shift_R, KeyPress, ShiftMask⟩] (by decide)⟩

/-! ## C19 -/

/-- The loop calls the decoder once per printed sequence and once more on
the iteration that ends it. -/
theorem decodeOffsets_length (w : WinKeyData) (type : Int) (c : Nat) (buf : List Nat) :
    ∀ (fuel offset : Nat) (first : Bool),
      (decodeOffsets buf fuel offset first).length =
        (emitLoop w type c buf fuel offset first).1.length +
          (if (emitLoop w type c buf fuel offset first).2 = LoopExit.fuel then 0 else 1) := by
  intro fuel
  induction fuel with
  | zero =>
    intro offset first
    simp [decodeOffsets, emitLoop]
  | succ n ih =>
    intro offset first
    unfold decodeOffsets emitLoop
    cases hd : utf8_char_to_ucs2 (List.drop offset buf) with
    | none => simp
    | some cn =>
      obtain ⟨ch, numread⟩ := cn
      simp only []
      by_cases hc : numread ≠ 0 ∨ first = true
      · simp only [if_pos hc, List.length_cons, ih]
        split_ifs <;> omega
      · simp [if_neg hc]

theorem length_standardUtf8EncodeAll_cons (p : Nat) (ps : List Nat) :
    (standardUtf8EncodeAll (p :: ps)).length =
      (standardUtf8Encode p).length + (standardUtf8EncodeAll ps).length := by
  simp [standardUtf8EncodeAll]

/-- On a buffer that holds, from `offset` on, the standard encodings of
the code points `cps` (each in [1, 0xFFFF]) and then a zero byte, every
offset of the loop lies at or before the zero byte. -/
theorem decodeOffsets_encoded (buf rest : List Nat) :
    ∀ (fuel : Nat) (cps : List Nat) (offset : Nat) (first : Bool),
      (∀ p ∈ cps, 1 ≤ p ∧ p ≤ 0xFFFF) →
      buf.drop offset = standardUtf8EncodeAll cps ++ 0 :: rest →
      ∀ o ∈ decodeOffsets buf fuel offset first,
        o ≤ offset + (standardUtf8EncodeAll cps).length := by
  intro fuel
  induction fuel with
  | zero =>
    intro cps offset first _ _ o ho
    simp [decodeOffsets] at ho
  | succ n ih =>
    intro cps offset first hr hd o ho
    unfold decodeOffsets at ho
    rw [List.mem_cons] at ho
    rcases ho with ho | ho
    · omega
    · cases cps with
      | nil =>
        have hdec : utf8_char_to_ucs2 (List.drop offset buf) = some (0, 0) := by
          rw [hd]
          simp [standardUtf8EncodeAll, utf8_char_to_ucs2]
        simp only [hdec] at ho
        split_ifs at ho with hc
        · exact ih [] (offset + 0) false hr (by simpa using hd) o ho
        · simp at ho
      | cons p ps =>
        have hp := hr p (List.mem_cons_self p ps)
        have hsplit : standardUtf8EncodeAll (p :: ps) ++ 0 :: rest =
            standardUtf8Encode p ++ (standardUtf8EncodeAll ps ++ 0 :: rest) := by
          simp [standardUtf8EncodeAll]
        have hdec : utf8_char_to_ucs2 (List.drop offset buf) =
            some (p, (standardUtf8Encode p).length) := by
          rw [hd, hsplit]
          exact decode_standardUtf8Encode p _ hp.1 hp.2
        have hnext : List.drop (offset + (standardUtf8Encode p).length) buf =
            standardUtf8EncodeAll ps ++ 0 :: rest := by
          rw [← List.drop_drop, hd, hsplit, List.drop_left]
        simp only [hdec] at ho
        split_ifs at ho with hc
        · have := ih ps _ false (fun q hq => hr q (List.mem_cons_of_mem p hq)) hnext o ho
          rw [length_standardUtf8EncodeAll_cons]
          omega
        · simp at ho

/-- One call of the decoder on a payload without a cut-off lead, followed
by the terminator: it consumes no more than the payload holds, and what is
left of the payload has no cut-off lead either. -/
theorem decode_of_leadsComplete (rest p : List Nat) (h : leadsComplete p = true)
    (ch n : Nat) (hd : utf8_char_to_ucs2 (p ++ 0 :: rest) = some (ch, n)) :
    n ≤ p.length ∧ leadsComplete (p.drop n) = true := by
  rcases p with _ | ⟨b0, _ | ⟨b1, _ | ⟨b2, t⟩⟩⟩ <;>
    simp only [utf8_char_to_ucs2, List.cons_append, List.nil_append, leadsComplete] at hd h <;>
    split_ifs at hd h <;>
    simp only [Option.some.injEq, Prod.mk.injEq] at hd <;>
    obtain ⟨-, rfl⟩ := hd <;>
    simp_all [leadsComplete]

/-- On such a payload the decoder reads no byte outside the array. -/
theorem decode_isSome_of_leadsComplete (rest p : List Nat) (h : leadsComplete p = true) :
    utf8_char_to_ucs2 (p ++ 0 :: rest) ≠ none := by
  rcases p with _ | ⟨b0, _ | ⟨b1, _ | ⟨b2, t⟩⟩⟩ <;>
    simp only [utf8_char_to_ucs2, List.cons_append, List.nil_append, leadsComplete] at h ⊢ <;>
    split_ifs at h ⊢ <;>
    simp_all

/-- One call of the decoder on a payload in which the scan meets a cut-off
lead: it consumes at least one byte, and either more than the payload holds
or it leaves a payload of the same kind. -/
theorem decode_of_not_leadsComplete (rest p : List Nat) (h : leadsComplete p = false)
    (ch n : Nat) (hd : utf8_char_to_ucs2 (p ++ 0 :: rest) = some (ch, n)) :
    n ≠ 0 ∧ (p.length < n ∨ (n ≤ p.length ∧ leadsComplete (p.drop n) = false)) := by
  rcases rest with _ | ⟨r0, rest⟩ <;>
    rcases p with _ | ⟨b0, _ | ⟨b1, _ | ⟨b2, t⟩⟩⟩ <;>
    simp only [utf8_char_to_ucs2, List.cons_append, List.nil_append, leadsComplete] at hd h <;>
    split_ifs at hd h <;>
    simp only [Option.some.injEq, Prod.mk.injEq] at hd <;>
    obtain ⟨-, rfl⟩ := hd <;>
    simp_all [leadsComplete]

/-- On a buffer that holds, from `offset` on, a payload without a cut-off
lead and then the terminator, every offset of the loop lies at or before
the terminator. -/
theorem decodeOffsets_leadsComplete (buf rest : List Nat) :
    ∀ (fuel : Nat) (p : List Nat) (offset : Nat) (first : Bool),
      buf.drop offset = p ++ 0 :: rest → leadsComplete p = true →
      ∀ o ∈ decodeOffsets buf fuel offset first, o ≤ offset + p.length := by
  intro fuel
  induction fuel with
  | zero =>
    intro p offset first _ _ o ho
    simp [decodeOffsets] at ho
  | succ n ih =>
    intro p offset first hd hc o ho
    unfold decodeOffsets at ho
    rw [List.mem_cons] at ho
    rcases ho with ho | ho
    · omega
    · cases hdec : utf8_char_to_ucs2 (List.drop offset buf) with
      | none =>
        rw [hd] at hdec
        exact absurd hdec (decode_isSome_of_leadsComplete rest p hc)
      | some cn =>
        obtain ⟨ch, k⟩ := cn
        have hstep := decode_of_leadsComplete rest p hc ch k (by rw [← hd]; exact hdec)
        have hnext : List.drop (offset + k) buf = p.drop k ++ 0 :: rest := by
          rw [← List.drop_drop, hd, List.drop_append_of_le_length hstep.1]
        simp only [hdec] at ho
        split_ifs at ho with hcond
        · have := ih (p.drop k) (offset + k) false hnext hstep.2 o ho
          rw [List.length_drop] at this
          omega
        · simp at ho

/-- On such a buffer no call of the decoder reads outside the array. -/
theorem emitLoop_leadsComplete (w : WinKeyData) (type : Int) (c : Nat) (buf rest : List Nat) :
    ∀ (fuel : Nat) (p : List Nat) (offset : Nat) (first : Bool),
      buf.drop offset = p ++ 0 :: rest → leadsComplete p = true →
      (emitLoop w type c buf fuel offset first).2 ≠ LoopExit.fault := by
  intro fuel
  induction fuel with
  | zero =>
    intro p offset first _ _
    simp [emitLoop]
  | succ n ih =>
    intro p offset first hd hc
    unfold emitLoop
    cases hdec : utf8_char_to_ucs2 (List.drop offset buf) with
    | none =>
      rw [hd] at hdec
      exact absurd hdec (decode_isSome_of_leadsComplete rest p hc)
    | some cn =>
      obtain ⟨ch, k⟩ := cn
      have hstep := decode_of_leadsComplete rest p hc ch k (by rw [← hd]; exact hdec)
      have hnext : List.drop (offset + k) buf = p.drop k ++ 0 :: rest := by
        rw [← List.drop_drop, hd, List.drop_append_of_le_length hstep.1]
      simp only []
      split_ifs with hcond
      · exact ih (p.drop k) (offset + k) false hnext hstep.2
      · simp

/-- On a buffer that holds, from `offset` on, a payload in which the scan of
the loop meets a cut-off lead, and then the terminator, the loop reads
outside the array or calls the decoder at an offset behind the
terminator. -/
theorem emitLoop_not_leadsComplete (w : WinKeyData) (type : Int) (c : Nat)
    (buf rest : List Nat) :
    ∀ (fuel : Nat) (p : List Nat) (offset : Nat) (first : Bool),
      buf.drop offset = p ++ 0 :: rest → leadsComplete p = false → p.length + 2 ≤ fuel →
      (emitLoop w type c buf fuel offset first).2 = LoopExit.fault ∨
        ∃ o ∈ decodeOffsets buf fuel offset first, offset + p.length < o := by
  intro fuel
  induction fuel with
  | zero =>
    intro p offset first _ _ hf
    omega
  | succ n ih =>
    intro p offset first hd hc hf
    unfold emitLoop decodeOffsets
    cases hdec : utf8_char_to_ucs2 (List.drop offset buf) with
    | none => exact Or.inl rfl
    | some cn =>
      obtain ⟨ch, k⟩ := cn
      obtain ⟨hk, hstep⟩ := decode_of_not_leadsComplete rest p hc ch k (by rw [← hd]; exact hdec)
      have hcond : k ≠ 0 ∨ first = true := Or.inl hk
      simp only [if_pos hcond, List.mem_cons]
      rcases hstep with hlt | ⟨hle, hc2⟩
      · right
        refine ⟨offset + k, Or.inr ?_, by omega⟩
        obtain ⟨m, rfl⟩ : ∃ m, n = m + 1 := ⟨n - 1, by omega⟩
        unfold decodeOffsets
        exact List.mem_cons_self _ _
      · have hnext : List.drop (offset + k) buf = p.drop k ++ 0 :: rest := by
          rw [← List.drop_drop, hd, List.drop_append_of_le_length hle]
        have hfuel : (p.drop k).length + 2 ≤ n := by
          rw [List.length_drop]
          omega
        rcases ih (p.drop k) (offset + k) false hnext hc2 hfuel with h | ⟨o, ho, hlt⟩
        · exact Or.inl h
        · right
          rw [List.length_drop] at hlt
          exact ⟨o, Or.inr ho, by omega⟩

/-- The standard encoding of a code point from 1 to 0xFFFF is a complete
sequence: the scan of the loop passes it. -/
theorem leadsComplete_encode_append (p : Nat) (q : List Nat) (h1 : 1 ≤ p) (h2 : p ≤ 0xFFFF) :
    leadsComplete (standardUtf8Encode p ++ q) = leadsComplete q := by
  unfold standardUtf8Encode
  by_cases ha : p < 0x80
  · have hne : p ≠ 0 := by omega
    have hb7 := ascii_bit7 p ha
    rcases q with _ | ⟨b1, _ | ⟨b2, t⟩⟩ <;> simp [ha, leadsComplete, hne, hb7]
  · by_cases hb : p < 0x800
    · have hh : p >>> 6 < 32 := by
        rw [Nat.shiftRight_eq_div_pow]
        omega
      obtain ⟨l1, l2, l3, -⟩ := lead2_bits (p >>> 6) hh
      rcases q with _ | ⟨b1, t⟩ <;>
        simp only [ha, hb, if_false, if_true, List.cons_append, List.nil_append,
          leadsComplete, l1, l2, l3]
    · have hh : p >>> 12 < 16 := by
        rw [Nat.shiftRight_eq_div_pow]
        omega
      obtain ⟨l1, l2, l3, l4, -⟩ := lead3_bits (p >>> 12) hh
      simp only [ha, hb, if_false, List.cons_append, List.nil_append,
        leadsComplete, l1, l2, l3, l4, if_true]

/-- Every payload that is the standard encoding of code points from 1 to
0xFFFF has no cut-off lead. -/
theorem leadsComplete_standardUtf8EncodeAll (cps : List Nat)
    (hr : ∀ p ∈ cps, 1 ≤ p ∧ p ≤ 0xFFFF) : leadsComplete (standardUtf8EncodeAll cps) = true := by
  induction cps with
  | nil => rfl
  | cons p ps ih =>
    have hp := hr p (List.mem_cons_self p ps)
    have hsplit : standardUtf8EncodeAll (p :: ps) =
        standardUtf8Encode p ++ standardUtf8EncodeAll ps := by
      simp [standardUtf8EncodeAll]
    rw [hsplit, leadsComplete_encode_append p _ hp.1 hp.2]
    exact ih (fun q hq => hr q (List.mem_cons_of_mem p hq))

/-- Payloads with a stray continuation byte, with the lead of a four-byte
sequence, or with a two-byte lead followed by a letter have no cut-off
lead. -/
theorem leadsComplete_examples :
    leadsComplete [0x41, 0xF0, 0x9F, 0x98, 0x80] = true ∧ leadsComplete [0xC3, 0x41] = true ∧
    leadsComplete [0x41, 0x80] = true ∧ leadsComplete [] = true ∧
    leadsComplete [0xC3] = false ∧ leadsComplete [0x41, 0xE2, 0x82] = false := by
  decide

/-- C19, as stated, fails: with the payload C3 (a two-byte lead without
its continuation byte) the terminator stands at position 1, and the decoder
takes it as the continuation byte: the loop calls the decoder at the offsets
0, 2 and 3, beyond the terminator, and prints a second sequence from the
byte 0x41 the array held there; when the array ends behind the terminator,
the second call reads outside it. -/
theorem C19_counterexample :
    decodeOffsets [0xC3, 0, 0x41, 0] 6 0 true = [0, 2, 3] ∧
    (handleEvent 0 ⟨XKB_KEY_A, KeyPress, 0⟩ [0xC3, 0, 0x41, 0]).2 =
      ([⟨65, 108, 0xC0, 1, 0, 1⟩, ⟨65, 108, 0x41, 1, 0, 1⟩], LoopExit.brk) ∧
    (handleEvent 0 ⟨XKB_KEY_A, KeyPress, 0⟩ [0xC3, 0]).2 =
      ([⟨65, 108, 0xC0, 1, 0, 1⟩], LoopExit.fault) := by
  decide

/-- C19, amended: for every payload `p` of arbitrary bytes in which no
two-byte or three-byte lead that the loop reaches is cut off by the
terminator (`leadsComplete p`; a lead the loop does not reach, and any
stray continuation byte or lead of a longer sequence, is allowed), followed
by the terminator that line 131 writes at position `p.length` and by
whatever the array holds behind it, the loop ends by its `break`, with no
read outside the array, and every offset at which it calls the decoder lies
at or before the position of the terminator. Only the other payloads are
excluded, and each of them does break the bound: for every payload `q` in
which the loop reaches a cut-off lead, the loop reads outside the array or
calls the decoder at an offset behind the terminator. -/
theorem C19_bounded_decoding (s : Nat) (ev : KeyEvent) (p q rest : List Nat)
    (hp : leadsComplete p = true) (hq : leadsComplete q = false) :
    (handleEvent s ev (p ++ 0 :: rest)).2.2 = LoopExit.brk ∧
    (∀ o ∈ decodeOffsets (p ++ 0 :: rest) ((p ++ 0 :: rest).length + 2) 0 true,
      o ≤ p.length) ∧
    (p ++ 0 :: rest)[p.length]? = some 0 ∧
    ((handleEvent s ev (q ++ 0 :: rest)).2.2 = LoopExit.fault ∨
      ∃ o ∈ decodeOffsets (q ++ 0 :: rest) ((q ++ 0 :: rest).length + 2) 0 true,
        q.length < o) := by
  refine ⟨?_, ?_, ?_, ?_⟩
  · rw [handleEvent_eq]
    have hfault := emitLoop_leadsComplete (xkb_to_winkey (keysymToInt ev.sym)) ev.type
      (eventControlKeyState s ev) (p ++ 0 :: rest) rest ((p ++ 0 :: rest).length + 2) p 0 true
      (by simp) hp
    have hfuel := emitLoop_fuel (xkb_to_winkey (keysymToInt ev.sym)) ev.type
      (eventControlKeyState s ev) (p ++ 0 :: rest) ((p ++ 0 :: rest).length + 2) 0 true
      (by simp)
    simp only []
    cases hx : (emitLoop (xkb_to_winkey (keysymToInt ev.sym)) ev.type
      (eventControlKeyState s ev) (p ++ 0 :: rest) ((p ++ 0 :: rest).length + 2) 0 true).2 with
    | brk => rfl
    | fault => exact absurd hx hfault
    | fuel => exact absurd hx hfuel
  · intro o ho
    have := decodeOffsets_leadsComplete _ rest _ p 0 true (by simp) hp o ho
    omega
  · rw [List.getElem?_append_right (Nat.le_refl _)]
    simp
  · rw [handleEvent_eq]
    have := emitLoop_not_leadsComplete (xkb_to_winkey (keysymToInt ev.sym)) ev.type
      (eventControlKeyState s ev) (q ++ 0 :: rest) rest ((q ++ 0 :: rest).length + 2) q 0 true
      (by simp) hq (by simp)
    simpa using this

/-- C19 (amended) at the payload 41 F0 9F 98 80 (a letter and a four-byte
sequence, at whose lead the loop stops) and, for the excluded payloads, at
the payload C3. -/
theorem C19_bounded_decoding_witness :
    leadsComplete [0x41, 0xF0, 0x9F, 0x98, 0x80] = true ∧ leadsComplete [0xC3] = false ∧
    (handleEvent 0 ⟨XKB_KEY_A, KeyPress, 0⟩
      ([0x41, 0xF0, 0x9F, 0x98, 0x80] ++ 0 :: [0x41, 0])).2.2 = LoopExit.brk ∧
    (∀ o ∈ decodeOffsets ([0x41, 0xF0, 0x9F, 0x98, 0x80] ++ 0 :: [0x41, 0])
        (([0x41, 0xF0, 0x9F, 0x98, 0x80] ++ 0 :: [0x41, 0]).length + 2) 0 true,
      o ≤ [0x41, 0xF0, 0x9F, 0x98, 0x80].length) ∧
    ((handleEvent 0 ⟨XKB_KEY_A, KeyPress, 0⟩ ([0xC3] ++ 0 :: [0x41, 0])).2.2 = LoopExit.fault ∨
      ∃ o ∈ decodeOffsets ([0xC3] ++ 0 :: [0x41, 0]) (([0xC3] ++ 0 :: [0x41, 0]).length + 2)
        0 true, [0xC3].length < o) := by
  have h := C19_bounded_decoding 0 ⟨XKB_KEY_A, KeyPress, 0⟩ [0x41, 0xF0, 0x9F, 0x98, 0x80]
    [0xC3] [0x41, 0] (by decide) (by decide)
  exact ⟨by decide, by decide, h.1, h.2.1, h.2.2.2⟩

/-! ## C20 -/

theorem switchOn_some_mem (code : Int) (arr : WinKeyData) :
    ∀ cases : List (Int × WinKeyData), switchOn code cases = some arr → (code, arr) ∈ cases
  | [], h => by simp [switchOn] at h
  | (label, a) :: rest, h => by
    unfold switchOn at h
    split_ifs at h with hc
    · simp only [Option.some.injEq] at h
      subst hc
      subst h
      exact List.mem_cons_self _ _
    · exact List.mem_cons_of_mem _ (switchOn_some_mem code arr rest h)

theorem switchOn_of_mem (code : Int) :
    ∀ cases : List (Int × WinKeyData), code ∈ cases.map Prod.fst →
      ∃ arr, switchOn code cases = some arr
  | [], h => by simp at h
  | (label, a) :: rest, h => by
    unfold switchOn
    by_cases hc : code = label
    · exact ⟨a, by simp [hc]⟩
    · have hrest : code ∈ rest.map Prod.fst := by
        simp only [List.map_cons, List.mem_cons] at h
        rcases h with h | h
        · exact absurd h hc
        · exact h
      obtain ⟨arr, harr⟩ := switchOn_of_mem code rest hrest
      exact ⟨arr, by simp [hc, harr]⟩

/-- No two cases of the switch return the same array. -/
theorem switchCases_arrays_nodup : (switchCases.map Prod.snd).Nodup := by
  decide

/-- Every case of the switch returns a non-zero virtual-key code. -/
theorem switchCases_vk_ne_zero : ∀ e ∈ switchCases, e.2.vk ≠ 0 := by
  decide

/-- C20, as stated for every `k`, fails in its last part: the `int`
-2147483648 is unmapped (no case label, before and after folding), and
`xkb_to_winkey` returns no array for it, so none with virtual-key code 0:
the call of `isalpha` at line 47 is outside its domain. -/
theorem C20_counterexample :
    foldCode (-2147483648) ∉ caseLabels ∧
    ¬ ∃ w, xkb_to_winkey_checked (-2147483648) = some w ∧ w.vk = 0 := by
  refine ⟨by decide, ?_⟩
  rintro ⟨w, hw, -⟩
  rw [xkb_to_winkey_checked_of_lt _ (by decide)] at hw
  exact Option.noConfusion hw

/-- C20, amended: two keysyms `k1`, `k2` whose normalized values are distinct case
labels of the switch both get an array from `xkb_to_winkey` (line 47 is
defined for them), and the two arrays are distinct; every case of the switch
returns a non-zero virtual-key code; and for every keysym `k` whose `int`
value is at least -128 (the range in which the call of `isalpha` at line 47
is defined or not made; every keysym value 0..0x1fffffff lies in it)
`xkb_to_winkey` returns, and the virtual-key code returned is 0 if and only
if the normalized value of `k` is no case label. -/
theorem C20_table_injective (k1 k2 k : Int)
    (h1 : foldCode k1 ∈ caseLabels) (h2 : foldCode k2 ∈ caseLabels)
    (hne : foldCode k1 ≠ foldCode k2) (hrange : -128 ≤ k) :
    (xkb_to_winkey_checked k1 = some (xkb_to_winkey k1) ∧
      xkb_to_winkey_checked k2 = some (xkb_to_winkey k2) ∧
      xkb_to_winkey k1 ≠ xkb_to_winkey k2) ∧
    (∀ e ∈ switchCases, e.2.vk ≠ 0) ∧
    (xkb_to_winkey_checked k = some (xkb_to_winkey k) ∧
      ((xkb_to_winkey k).vk = 0 ↔ foldCode k ∉ caseLabels)) := by
  refine ⟨⟨xkb_to_winkey_checked_of_ge k1 (ge_of_foldCode_mem k1 h1),
    xkb_to_winkey_checked_of_ge k2 (ge_of_foldCode_mem k2 h2), ?_⟩,
    switchCases_vk_ne_zero, xkb_to_winkey_checked_of_ge k hrange, ?_⟩
  · obtain ⟨a1, ha1⟩ := switchOn_of_mem _ switchCases h1
    obtain ⟨a2, ha2⟩ := switchOn_of_mem _ switchCases h2
    have e1 : xkb_to_winkey k1 = a1 := by simp [xkb_to_winkey, ha1]
    have e2 : xkb_to_winkey k2 = a2 := by simp [xkb_to_winkey, ha2]
    rw [e1, e2]
    intro heq
    subst heq
    have m1 := switchOn_some_mem _ _ _ ha1
    have m2 := switchOn_some_mem _ _ _ ha2
    have := List.inj_on_of_nodup_map switchCases_arrays_nodup m1 m2 rfl
    exact hne (congrArg Prod.fst this)
  · constructor
    · intro hz hmem
      obtain ⟨a, ha⟩ := switchOn_of_mem _ switchCases hmem
      have e : xkb_to_winkey k = a := by simp [xkb_to_winkey, ha]
      rw [e] at hz
      exact switchCases_vk_ne_zero _ (switchOn_some_mem _ _ _ ha) hz
    · intro hnot
      unfold xkb_to_winkey
      rw [switchOn_of_not_mem _ switchCases hnot]

/-- C20 (amended) at Return and KP_Enter (same key code and scan code, different
third byte) and at the unmapped keysym 0xffca (F13). -/
theorem C20_table_injective_witness :
    (foldCode XKB_KEY_Return ∈ caseLabels ∧ foldCode XKB_KEY_KP_Enter ∈ caseLabels ∧
      foldCode XKB_KEY_Return ≠ foldCode XKB_KEY_KP_Enter ∧ (-128 : Int) ≤ 0xffca) ∧
    xkb_to_winkey_checked XKB_KEY_Return = some ⟨13, 28, 0⟩ ∧
    xkb_to_winkey_checked XKB_KEY_KP_Enter = some ⟨13, 28, 1⟩ ∧
    xkb_to_winkey XKB_KEY_Return ≠ xkb_to_winkey XKB_KEY_KP_Enter ∧
    xkb_to_winkey_checked 0xffca = some (xkb_to_winkey 0xffca) ∧
    ((xkb_to_winkey 0xffca).vk = 0 ↔ foldCode 0xffca ∉ caseLabels) := by
  have h := C20_table_injective XKB_KEY_Return XKB_KEY_KP_Enter 0xffca
    (by decide) (by decide) (by decide) (by decide)
  exact ⟨⟨by decide, by decide, by decide, by decide⟩, h.1.1, h.1.2.1, h.1.2.2,
    h.2.2.1, h.2.2.2⟩

/-! ## C21 -/

/-- C21: on the numeric keypad each NumLock-on keysym gets from
`xkb_to_winkey` the scan code of the NumLock-off keysym of the same physical
key, for the eleven pairs KP_0 / KP_Insert, KP_1 / KP_End, KP_2 / KP_Down,
KP_3 / KP_Page_Down, KP_4 / KP_Left, KP_5 / KP_Begin, KP_6 / KP_Right,
KP_7 / KP_Home, KP_8 / KP_Up, KP_9 / KP_Page_Up, KP_Decimal / KP_Delete; and
each of the ten navigation keys Home, End, Page_Up, Page_Down, Left, Up, Right,
Down, Insert, Delete gets the scan code of its KP_ counterpart. -/
theorem C21_keypad_scan_codes :
    ((xkb_to_winkey XKB_KEY_KP_0).scan = (xkb_to_winkey XKB_KEY_KP_Insert).scan ∧
     (xkb_to_winkey XKB_KEY_KP_1).scan = (xkb_to_winkey XKB_KEY_KP_End).scan ∧
     (xkb_to_winkey XKB_KEY_KP_2).scan = (xkb_to_winkey XKB_KEY_KP_Down).scan ∧
     (xkb_to_winkey XKB_KEY_KP_3).scan = (xkb_to_winkey XKB_KEY_KP_Page_Down).scan ∧
     (xkb_to_winkey XKB_KEY_KP_4).scan = (xkb_to_winkey XKB_KEY_KP_Left).scan ∧
     (xkb_to_winkey XKB_KEY_KP_5).scan = (xkb_to_winkey XKB_KEY_KP_Begin).scan ∧
     (xkb_to_winkey XKB_KEY_KP_6).scan = (xkb_to_winkey XKB_KEY_KP_Right).scan ∧
     (xkb_to_winkey XKB_KEY_KP_7).scan = (xkb_to_winkey XKB_KEY_KP_Home).scan ∧
     (xkb_to_winkey XKB_KEY_KP_8).scan = (xkb_to_winkey XKB_KEY_KP_Up).scan ∧
     (xkb_to_winkey XKB_KEY_KP_9).scan = (xkb_to_winkey XKB_KEY_KP_Page_Up).scan ∧
     (xkb_to_winkey XKB_KEY_KP_Decimal).scan = (xkb_to_winkey XKB_KEY_KP_Delete).scan) ∧
    ((xkb_to_winkey XKB_KEY_Home).scan = (xkb_to_winkey XKB_KEY_KP_Home).scan ∧
     (xkb_to_winkey XKB_KEY_End).scan = (xkb_to_winkey XKB_KEY_KP_End).scan ∧
     (xkb_to_winkey XKB_KEY_Page_Up).scan = (xkb_to_winkey XKB_KEY_KP_Page_Up).scan ∧
     (xkb_to_winkey XKB_KEY_Page_Down).scan = (xkb_to_winkey XKB_KEY_KP_Page_Down).scan ∧
     (xkb_to_winkey XKB_KEY_Left).scan = (xkb_to_winkey XKB_KEY_KP_Left).scan ∧
     (xkb_to_winkey XKB_KEY_Up).scan = (xkb_to_winkey XKB_KEY_KP_Up).scan ∧
     (xkb_to_winkey XKB_KEY_Right).scan = (xkb_to_winkey XKB_KEY_KP_Right).scan ∧
     (xkb_to_winkey XKB_KEY_Down).scan = (xkb_to_winkey XKB_KEY_KP_Down).scan ∧
     (xkb_to_winkey XKB_KEY_Insert).scan = (xkb_to_winkey XKB_KEY_KP_Insert).scan ∧
     (xkb_to_winkey XKB_KEY_Delete).scan = (xkb_to_winkey XKB_KEY_KP_Delete).scan) ∧
    [XKB_KEY_KP_0, XKB_KEY_KP_1, XKB_KEY_KP_2, XKB_KEY_KP_3, XKB_KEY_KP_4, XKB_KEY_KP_5,
      XKB_KEY_KP_6, XKB_KEY_KP_7, XKB_KEY_KP_8, XKB_KEY_KP_9, XKB_KEY_KP_Decimal].map
        (fun k => (xkb_to_winkey k).scan) = [82, 79, 80, 81, 75, 76, 77, 71, 72, 73, 83] := by
  decide

/-! ## C22 -/

theorem BitwiseAffine.id : BitwiseAffine (fun s => s) :=
  ⟨fun _ => true, fun _ => false, fun s i => by simp⟩

theorem BitwiseAffine.and_mask {f : Nat → Nat} (hf : BitwiseAffine f) (n : Nat) :
    BitwiseAffine (fun s => f s &&& n) := by
  obtain ⟨a, b, h⟩ := hf
  refine ⟨fun i => a i && n.testBit i, fun i => b i && n.testBit i, fun s i => ?_⟩
  rw [Nat.testBit_and, h]
  dsimp only
  cases s.testBit i <;> cases a i <;> cases b i <;> cases n.testBit i <;> rfl

theorem BitwiseAffine.or_mask {f : Nat → Nat} (hf : BitwiseAffine f) (n : Nat) :
    BitwiseAffine (fun s => f s ||| n) := by
  obtain ⟨a, b, h⟩ := hf
  refine ⟨a, fun i => b i || n.testBit i, fun s i => ?_⟩
  rw [Nat.testBit_or, h]
  dsimp only
  cases s.testBit i <;> cases a i <;> cases b i <;> cases n.testBit i <;> rfl

theorem BitwiseAffine.comp {f g : Nat → Nat} (hf : BitwiseAffine f) (hg : BitwiseAffine g) :
    BitwiseAffine (fun s => g (f s)) := by
  obtain ⟨a, b, h⟩ := hf
  obtain ⟨c, d, k⟩ := hg
  refine ⟨fun i => a i && c i, fun i => (b i && c i) || d i, fun s i => ?_⟩
  rw [k, h]
  dsimp only
  cases s.testBit i <;> cases a i <;> cases b i <;> cases c i <;> cases d i <;> rfl

/-- A function that acts bit by bit in this way is idempotent. -/
theorem BitwiseAffine.idempotent {f : Nat → Nat} (hf : BitwiseAffine f) (s : Nat) :
    f (f s) = f s := by
  obtain ⟨a, b, h⟩ := hf
  apply Nat.eq_of_testBit_eq
  intro i
  rw [h (f s) i, h s i]
  cases s.testBit i <;> cases a i <;> cases b i <;> rfl

theorem bitwiseAffine_reconcile (m : Nat) : BitwiseAffine (fun s => reconcile s m) := by
  unfold reconcile
  simp only []
  split_ifs <;> repeat (first | exact BitwiseAffine.id | apply BitwiseAffine.and_mask)

theorem bitwiseAffine_edgeTransition (sym type : Int) :
    BitwiseAffine (fun s => edgeTransition s sym type) := by
  have hid : (∀ s, edgeTransition s sym type = s) →
      BitwiseAffine (fun s => edgeTransition s sym type) := by
    intro h
    simp only [h]
    exact BitwiseAffine.id
  by_cases hp : type = KeyPress
  · subst hp
    by_cases h1 : sym = XKB_KEY_Shift_L
    · subst h1
      simp only [fun s => (edgeTransition_press s).1]
      exact (BitwiseAffine.id.or_mask _).or_mask _
    by_cases h2 : sym = XKB_KEY_Shift_R
    · subst h2
      simp only [fun s => (edgeTransition_press s).2.1]
      exact (BitwiseAffine.id.or_mask _).or_mask _
    by_cases h3 : sym = XKB_KEY_Control_L
    · subst h3
      simp only [fun s => (edgeTransition_press s).2.2.1]
      exact BitwiseAffine.id.or_mask _
    by_cases h4 : sym = XKB_KEY_Control_R
    · subst h4
      simp only [fun s => (edgeTransition_press s).2.2.2.1]
      exact BitwiseAffine.id.or_mask _
    by_cases h5 : sym = XKB_KEY_Alt_L
    · subst h5
      simp only [fun s => (edgeTransition_press s).2.2.2.2.1]
      exact BitwiseAffine.id.or_mask _
    by_cases h6 : sym = XKB_KEY_Alt_R
    · subst h6
      simp only [fun s => (edgeTransition_press s).2.2.2.2.2]
      exact BitwiseAffine.id.or_mask _
    exact hid (fun s => edgeTransition_of_not_modifier s sym _ h1 h2 h3 h4 h5 h6)
  · by_cases hr : type = KeyRelease
    · subst hr
      by_cases h1 : sym = XKB_KEY_Shift_L
      · subst h1
        simp only [fun s => (edgeTransition_release s).1]
        exact (BitwiseAffine.id.and_mask _).and_mask _
      by_cases h2 : sym = XKB_KEY_Shift_R
      · subst h2
        simp only [fun s => (edgeTransition_release s).2.1]
        exact (BitwiseAffine.id.and_mask _).and_mask _
      by_cases h3 : sym = XKB_KEY_Control_L
      · subst h3
        simp only [fun s => (edgeTransition_release s).2.2.1]
        exact BitwiseAffine.id.and_mask _
      by_cases h4 : sym = XKB_KEY_Control_R
      · subst h4
        simp only [fun s => (edgeTransition_release s).2.2.2.1]
        exact BitwiseAffine.id.and_mask _
      by_cases h5 : sym = XKB_KEY_Alt_L
      · subst h5
        simp only [fun s => (edgeTransition_release s).2.2.2.2.1]
        exact BitwiseAffine.id.and_mask _
      by_cases h6 : sym = XKB_KEY_Alt_R
      · subst h6
        simp only [fun s => (edgeTransition_release s).2.2.2.2.2]
        exact BitwiseAffine.id.and_mask _
      exact hid (fun s => edgeTransition_of_not_modifier s sym _ h1 h2 h3 h4 h5 h6)
    · exact hid (fun s => edgeTransition_of_not_press_release s sym type hp hr)

theorem bitwiseAffine_updateCks (ev : KeyEvent) : BitwiseAffine (fun s => updateCks s ev) :=
  (bitwiseAffine_reconcile ev.state).comp (bitwiseAffine_edgeTransition ev.sym ev.type)

/-- C22: for every tracker state `s` and every event `ev`, processing
`ev` twice in a row leaves the tracked state that processing it once leaves;
so after any sequence `evs` of events a repeated event does not change the
tracked state, and the value of `cks` that `handleEvent` hands on is the same
after the repetition. -/
theorem C22_update_idempotent (s : Nat) (ev : KeyEvent) (evs : List KeyEvent)
    (buf : List Nat) :
    updateCks (updateCks s ev) ev = updateCks s ev ∧
    cksAfter (evs ++ [ev, ev]) = cksAfter (evs ++ [ev]) ∧
    (handleEvent (handleEvent s ev buf).1 ev buf).1 = (handleEvent s ev buf).1 := by
  have h : ∀ t, updateCks (updateCks t ev) ev = updateCks t ev :=
    fun t => (bitwiseAffine_updateCks ev).idempotent t
  refine ⟨h s, ?_, ?_⟩
  · simp only [cksAfter, List.foldl_append, List.foldl_cons, List.foldl_nil]
    exact h _
  · simp only [handleEvent_eq]
    exact h s

end Xkb2Win
